import Mathlib

/-!
Verification of the metchera-meet real-time session-coordination layer.

The development shallowly embeds two source components:

* `src/app/lib/webrtc.ts` — the client-side `WebRTCConnection` class
  (peer map, pending-signal queues, create/remove/close operations);
* `src/server.js` — the Socket.IO signaling server (room registry,
  join/leave/signal/update-media/send-message/disconnect handlers).

JavaScript `Map` objects are embedded as association lists preserving
insertion order (`jget` = `Map.get`, `jset` = `Map.set`, `jdel` =
`Map.delete`, `jhas` = `Map.has`): `set` of an existing key replaces the
value in place, `set` of a fresh key appends, and iteration order is list
order, exactly as in JS.  Opaque signal payloads are embedded as natural
numbers.  Feeding a signal into `peer.signal(...)` is recorded on the
connection's `applied` list and in a global log tagged with the
connection's creation generation, so that statements about "signals
applied to a connection" are expressible.
-/

section JsMap

variable {α : Type} {β : Type} [DecidableEq α]

/-- `Map.get`: first binding of the key, in insertion order. -/
def jget : List (α × β) → α → Option β
  | [], _ => none
  | kv :: t, k => if kv.1 = k then some kv.2 else jget t k

/-- `Map.set`: replace the binding in place when the key is present,
append a fresh binding otherwise. -/
def jset : List (α × β) → α → β → List (α × β)
  | [], k, v => [(k, v)]
  | kv :: t, k, v => if kv.1 = k then (k, v) :: t else kv :: jset t k v

/-- `Map.delete`: remove the bindings of the key. -/
def jdel (m : List (α × β)) (k : α) : List (α × β) :=
  m.filter (fun kv => decide (kv.1 ≠ k))

/-- `Map.has`. -/
def jhas (m : List (α × β)) (k : α) : Bool :=
  (jget m k).isSome

@[simp] theorem jget_nil (k : α) : jget ([] : List (α × β)) k = none := rfl

@[simp] theorem jget_jset_self (m : List (α × β)) (k : α) (v : β) :
    jget (jset m k v) k = some v := by
  induction m with
  | nil => simp [jget, jset]
  | cons kv t ih =>
      by_cases h : kv.1 = k
      · simp [jget, jset, h]
      · simp [jget, jset, h, ih]

theorem jget_jset_ne (m : List (α × β)) {k k' : α} (h : k' ≠ k) (v : β) :
    jget (jset m k v) k' = jget m k' := by
  induction m with
  | nil => simp [jget, jset, Ne.symm h]
  | cons kv t ih =>
      by_cases h1 : kv.1 = k
      · simp [jget, jset, h1, Ne.symm h]
      · by_cases h2 : kv.1 = k'
        · simp [jget, jset, h1, h2, h]
        · simp [jget, jset, h1, h2, ih]

@[simp] theorem jget_jdel_self (m : List (α × β)) (k : α) :
    jget (jdel m k) k = none := by
  induction m with
  | nil => rfl
  | cons kv t ih =>
      by_cases h : kv.1 = k
      · simpa [jdel, List.filter_cons, h] using ih
      · simpa [jdel, List.filter_cons, jget, h] using ih

theorem jget_jdel_ne (m : List (α × β)) {k k' : α} (h : k' ≠ k) :
    jget (jdel m k) k' = jget m k' := by
  induction m with
  | nil => rfl
  | cons kv t ih =>
      by_cases h1 : kv.1 = k
      · simpa [jdel, List.filter_cons, jget, h1, Ne.symm h] using ih
      · by_cases h2 : kv.1 = k'
        · simp [jdel, List.filter_cons, jget, h1, h2, h]
        · simpa [jdel, List.filter_cons, jget, h1, h2] using ih

theorem jhas_iff (m : List (α × β)) (k : α) :
    jhas m k = true ↔ ∃ v, jget m k = some v := by
  simp [jhas, Option.isSome_iff_exists]

end JsMap

/-! ## Peer Lifecycle Manager (`src/app/lib/webrtc.ts`) -/

/-- Opaque negotiation payload. -/
abbrev Sig := Nat

/-- Client-local `PeerConnection` record (`webrtc.ts` lines 7-12).
`gen` is the creation generation of the underlying `simple-peer`
instance (distinguishes "this" connection object from a later one for
the same peer id); `applied` records, in order, the signals fed to
`peer.signal(...)` on this connection. -/
structure PeerConn where
  peerId : String
  gen : Nat
  initiator : Bool
  destroyed : Bool
  applied : List Sig
  deriving DecidableEq, Repr

/-- State of a `WebRTCConnection` instance: `peers` and
`pendingSignals` are the two `Map`s of the class; `counter` generates
creation generations; `log` records every `peer.signal(...)` call as
(generation of the receiving connection, signal). -/
structure RTCState where
  peers : List (String × PeerConn)
  pending : List (String × List Sig)
  counter : Nat
  log : List (Nat × Sig)
  deriving DecidableEq, Repr

def RTCState.init : RTCState := ⟨[], [], 0, []⟩

/-- `hasPeer` (`webrtc.ts` lines 148-150): an entry exists and is not
destroyed. -/
def hasPeer (s : RTCState) (peerId : String) : Bool :=
  match jget s.peers peerId with
  | some pc => !pc.destroyed
  | none => false

/-- One `peerConnection.peer.signal(signal)` call on the entry for
`peerId`, guarded exactly as in `applyPendingSignals`
(`webrtc.ts` lines 260-262): look the entry up, apply only when it is
present and not destroyed. -/
def applySigOnce (s : RTCState) (peerId : String) (sig : Sig) : RTCState :=
  match jget s.peers peerId with
  | some pc =>
      if pc.destroyed then s
      else
        { s with
          peers := jset s.peers peerId { pc with applied := pc.applied ++ [sig] },
          log := s.log ++ [(pc.gen, sig)] }
  | none => s

/-- `applyPendingSignals` (`webrtc.ts` lines 253-271): if a queue exists
for the peer, replay each queued signal in order (re-checking liveness
before each application), then delete the queue. -/
def applyPendingSignals (s : RTCState) (peerId : String) : RTCState :=
  match jget s.pending peerId with
  | none => s
  | some sigs =>
      let s1 := sigs.foldl (fun acc sig => applySigOnce acc peerId sig) s
      { s1 with pending := jdel s1.pending peerId }

/-- `handleSignal` (`webrtc.ts` lines 276-301): a live entry receives the
signal directly; otherwise the signal is appended to the sender's pending
queue (creating the queue when absent) and no connection is created. -/
def handleSignal (s : RTCState) (sig : Sig) (src : String) : RTCState :=
  match jget s.peers src with
  | some pc =>
      if pc.destroyed then
        { s with pending := jset s.pending src ((jget s.pending src).getD [] ++ [sig]) }
      else
        { s with
          peers := jset s.peers src { pc with applied := pc.applied ++ [sig] },
          log := s.log ++ [(pc.gen, sig)] }
  | none =>
      { s with pending := jset s.pending src ((jget s.pending src).getD [] ++ [sig]) }

/-- `createPeer` (`webrtc.ts` lines 155-248): a destroyed entry is purged
first and a live entry is returned unchanged; otherwise a fresh
connection is stored and the pending queue for the peer is replayed and
deleted. -/
def createPeer (s : RTCState) (peerId : String) (initiator : Bool) : RTCState :=
  let mk := fun (t : RTCState) =>
    let pc : PeerConn := ⟨peerId, t.counter, initiator, false, []⟩
    applyPendingSignals
      { t with peers := jset t.peers peerId pc, counter := t.counter + 1 }
      peerId
  match jget s.peers peerId with
  | some pc =>
      if pc.destroyed then
        mk { s with peers := jdel s.peers peerId }
      else s
  | none => mk s

/-- `removePeer` (`webrtc.ts` lines 306-324): only a live entry is acted
on — it is marked destroyed, destroyed, and both its map entry and its
pending queue are deleted. An absent or already-destroyed entry is left
untouched. -/
def removePeer (s : RTCState) (peerId : String) : RTCState :=
  match jget s.peers peerId with
  | some pc =>
      if pc.destroyed then s
      else
        let peers1 := jset s.peers peerId { pc with destroyed := true }
        { s with peers := jdel peers1 peerId, pending := jdel s.pending peerId }
  | none => s

/-- `closeAllConnections` (`webrtc.ts` lines 329-342): every entry is
marked destroyed and destroyed, then both maps are cleared. -/
def closeAllConnections (s : RTCState) : RTCState :=
  { s with peers := [], pending := [] }

/-- The `'close'` / `'error'` callbacks of a connection
(`webrtc.ts` lines 215-229): mark the entry for the peer id destroyed
when one exists. -/
def markClosed (s : RTCState) (peerId : String) : RTCState :=
  match jget s.peers peerId with
  | some pc => { s with peers := jset s.peers peerId { pc with destroyed := true } }
  | none => s

/-- Teardown event emitted while `closeAllConnections` iterates the map. -/
inductive TearEvent where
  | mark (peerId : String)
  | destroy (peerId : String)
  deriving DecidableEq, Repr

/-- The event sequence of `closeAllConnections` (`webrtc.ts` lines
331-339): the `forEach` body handles one entry at a time, marking it
destroyed and then destroying its underlying connection, before moving
on to the next entry. -/
def closeAllEvents (s : RTCState) : List TearEvent :=
  s.peers.flatMap fun kv => [TearEvent.mark kv.1, TearEvent.destroy kv.1]

/-- Operations driving a `WebRTCConnection` instance. -/
inductive WOp where
  | hsig (src : String) (sig : Sig)
  | create (peerId : String) (initiator : Bool)
  | remove (peerId : String)
  | closeAll
  | markC (peerId : String)
  deriving DecidableEq, Repr

def wstep (s : RTCState) : WOp → RTCState
  | .hsig src sig => handleSignal s sig src
  | .create peerId i => createPeer s peerId i
  | .remove peerId => removePeer s peerId
  | .closeAll => closeAllConnections s
  | .markC peerId => markClosed s peerId

def wrun (s : RTCState) (ops : List WOp) : RTCState :=
  ops.foldl wstep s

/-! ## Behavior lemmas for the peer lifecycle operations -/

/-- Replaying a list of signals through `applySigOnce` on a live entry
appends exactly those signals, in order, to the entry's `applied` list
and to the log; nothing else changes. -/
theorem applySig_foldl (X : String) (sigs : List Sig) (t : RTCState) (pc : PeerConn)
    (hX : jget t.peers X = some pc) (hd : pc.destroyed = false) :
    jget (sigs.foldl (fun acc sg => applySigOnce acc X sg) t).peers X
        = some { pc with applied := pc.applied ++ sigs } ∧
    (sigs.foldl (fun acc sg => applySigOnce acc X sg) t).pending = t.pending ∧
    (sigs.foldl (fun acc sg => applySigOnce acc X sg) t).counter = t.counter ∧
    (∀ Y, Y ≠ X → jget (sigs.foldl (fun acc sg => applySigOnce acc X sg) t).peers Y
        = jget t.peers Y) ∧
    (sigs.foldl (fun acc sg => applySigOnce acc X sg) t).log
        = t.log ++ sigs.map fun sg => (pc.gen, sg) := by
  induction sigs generalizing t pc with
  | nil => simpa using hX
  | cons s0 rest ih =>
      have hstep : applySigOnce t X s0 =
          { t with
            peers := jset t.peers X { pc with applied := pc.applied ++ [s0] },
            log := t.log ++ [(pc.gen, s0)] } := by
        simp [applySigOnce, hX, hd]
      have hX' : jget (applySigOnce t X s0).peers X
          = some { pc with applied := pc.applied ++ [s0] } := by
        rw [hstep]; exact jget_jset_self _ _ _
      have := ih (applySigOnce t X s0) { pc with applied := pc.applied ++ [s0] } hX' hd
      obtain ⟨h1, h2, h3, h4, h5⟩ := this
      refine ⟨?_, ?_, ?_, ?_, ?_⟩
      · simpa [List.foldl_cons, List.append_assoc] using h1
      · rw [List.foldl_cons, h2, hstep]
      · rw [List.foldl_cons, h3, hstep]
      · intro Y hY
        rw [List.foldl_cons, h4 Y hY, hstep]
        exact jget_jset_ne _ hY _
      · rw [List.foldl_cons, h5, hstep]
        simp

/-- `applyPendingSignals` on a state whose entry for `X` is live: the
whole queue (empty when absent) is appended to the entry's `applied`
list in original order and the queue is deleted; other peers and other
queues are untouched. -/
theorem applyPendingSignals_live (t : RTCState) (X : String) (pc : PeerConn)
    (hX : jget t.peers X = some pc) (hd : pc.destroyed = false) :
    jget (applyPendingSignals t X).peers X
        = some { pc with applied := pc.applied ++ (jget t.pending X).getD [] } ∧
    jget (applyPendingSignals t X).pending X = none ∧
    (applyPendingSignals t X).counter = t.counter ∧
    (∀ Y, Y ≠ X → jget (applyPendingSignals t X).peers Y = jget t.peers Y) ∧
    (∀ Y, Y ≠ X → jget (applyPendingSignals t X).pending Y = jget t.pending Y) := by
  unfold applyPendingSignals
  cases hq : jget t.pending X with
  | none =>
      refine ⟨?_, ?_, rfl, fun Y _ => rfl, fun Y _ => rfl⟩
      · simpa using hX
      · exact hq
  | some sigs =>
      obtain ⟨h1, h2, h3, h4, h5⟩ := applySig_foldl X sigs t pc hX hd
      refine ⟨by simpa using h1, ?_, h3, fun Y hY => h4 Y hY, fun Y hY => ?_⟩
      · simp
      · simp only [jget_jdel_ne _ hY, h2]


/-! ## Claim C1 -/

/-- **C1.** For every peer id `X`, if a signal for `X` arrives while no
live (non-destroyed) `PeerConnection` exists for `X`, `handleSignal`
appends it to `X`'s pending queue (leaving the peer map and all other
queues untouched, so no connection is created); and whenever
`createPeer X` creates a connection (i.e. no live entry exists), every
queued signal for `X` is applied to the new connection in original
arrival order and `X`'s pending queue is then deleted. -/
theorem c1_pending_queue_replay (s : RTCState) (X : String) (sig : Sig) (ini : Bool)
    (h : hasPeer s X = false) :
    (handleSignal s sig X).peers = s.peers ∧
    jget (handleSignal s sig X).pending X = some ((jget s.pending X).getD [] ++ [sig]) ∧
    (∀ Y, Y ≠ X → jget (handleSignal s sig X).pending Y = jget s.pending Y) ∧
    (∃ pc, jget (createPeer s X ini).peers X = some pc ∧ pc.destroyed = false ∧
      pc.initiator = ini ∧ pc.applied = (jget s.pending X).getD [] ∧
      jget (createPeer s X ini).pending X = none) := by
  cases hpx : jget s.peers X with
  | none =>
      have hhs : handleSignal s sig X =
          { s with pending := jset s.pending X ((jget s.pending X).getD [] ++ [sig]) } := by
        simp [handleSignal, hpx]
      have hcp : createPeer s X ini =
          applyPendingSignals
            { s with peers := jset s.peers X ⟨X, s.counter, ini, false, []⟩,
                     counter := s.counter + 1 } X := by
        simp [createPeer, hpx]
      refine ⟨by rw [hhs], by rw [hhs]; exact jget_jset_self _ _ _,
        fun Y hY => by rw [hhs]; exact jget_jset_ne _ hY _, ?_⟩
      obtain ⟨h1, h2, _, _, _⟩ :=
        applyPendingSignals_live
          { s with peers := jset s.peers X ⟨X, s.counter, ini, false, []⟩,
                   counter := s.counter + 1 }
          X ⟨X, s.counter, ini, false, []⟩ (jget_jset_self _ _ _) rfl
      refine ⟨_, by rw [hcp]; exact h1, rfl, rfl, by simp, by rw [hcp]; exact h2⟩
  | some pc =>
      have hd : pc.destroyed = true := by
        unfold hasPeer at h
        rw [hpx] at h
        simpa using h
      have hhs : handleSignal s sig X =
          { s with pending := jset s.pending X ((jget s.pending X).getD [] ++ [sig]) } := by
        simp [handleSignal, hpx, hd]
      have hcp : createPeer s X ini =
          applyPendingSignals
            { s with peers := jset (jdel s.peers X) X ⟨X, s.counter, ini, false, []⟩,
                     counter := s.counter + 1 } X := by
        simp [createPeer, hpx, hd]
      refine ⟨by rw [hhs], by rw [hhs]; exact jget_jset_self _ _ _,
        fun Y hY => by rw [hhs]; exact jget_jset_ne _ hY _, ?_⟩
      obtain ⟨h1, h2, _, _, _⟩ :=
        applyPendingSignals_live
          { s with peers := jset (jdel s.peers X) X ⟨X, s.counter, ini, false, []⟩,
                   counter := s.counter + 1 }
          X ⟨X, s.counter, ini, false, []⟩ (jget_jset_self _ _ _) rfl
      refine ⟨_, by rw [hcp]; exact h1, rfl, rfl, by simp, by rw [hcp]; exact h2⟩

/-- A state for exercising C1: two signals from peer `b` arrived before
any connection for `b` existed. -/
def c1ExampleState : RTCState :=
  wrun RTCState.init [WOp.hsig "b" 5, WOp.hsig "b" 6]

theorem c1_pending_queue_replay_witness :
    hasPeer c1ExampleState "b" = false ∧
    ((handleSignal c1ExampleState 7 "b").peers = c1ExampleState.peers ∧
     jget (handleSignal c1ExampleState 7 "b").pending "b"
        = some ((jget c1ExampleState.pending "b").getD [] ++ [7]) ∧
     (∀ Y, Y ≠ "b" → jget (handleSignal c1ExampleState 7 "b").pending Y
        = jget c1ExampleState.pending Y) ∧
     (∃ pc, jget (createPeer c1ExampleState "b" true).peers "b" = some pc ∧
       pc.destroyed = false ∧ pc.initiator = true ∧
       pc.applied = (jget c1ExampleState.pending "b").getD [] ∧
       jget (createPeer c1ExampleState "b" true).pending "b" = none)) :=
  ⟨by decide, c1_pending_queue_replay c1ExampleState "b" 7 true (by decide)⟩

/-! ## Claim C4 -/

/-- The C4 invariant: a peer id with a live (non-destroyed) entry has no
pending-signal queue. -/
def LiveQueueInv (s : RTCState) : Prop :=
  ∀ X pc, jget s.peers X = some pc → pc.destroyed = false → jget s.pending X = none

theorem liveQueueInv_step (s : RTCState) (op : WOp) (h : LiveQueueInv s) :
    LiveQueueInv (wstep s op) := by
  cases op with
  | hsig src sig =>
      cases hpx : jget s.peers src with
      | none =>
          have heq : wstep s (.hsig src sig) =
              { s with pending := jset s.pending src ((jget s.pending src).getD [] ++ [sig]) } := by
            simp [wstep, handleSignal, hpx]
          intro X pc hX hd
          rw [heq] at hX ⊢
          have hXne : X ≠ src := by
            intro he; subst he; rw [hpx] at hX; exact Option.noConfusion hX
          rw [jget_jset_ne _ hXne]
          exact h X pc hX hd
      | some pc0 =>
          by_cases hd0 : pc0.destroyed = true
          · have heq : wstep s (.hsig src sig) =
                { s with pending := jset s.pending src ((jget s.pending src).getD [] ++ [sig]) } := by
              simp [wstep, handleSignal, hpx, hd0]
            intro X pc hX hd
            rw [heq] at hX ⊢
            have hXne : X ≠ src := by
              intro he; subst he; rw [hpx] at hX
              injection hX with he2; subst he2
              rw [hd0] at hd; exact Bool.noConfusion hd
            rw [jget_jset_ne _ hXne]
            exact h X pc hX hd
          · have heq : wstep s (.hsig src sig) =
                { s with
                  peers := jset s.peers src { pc0 with applied := pc0.applied ++ [sig] },
                  log := s.log ++ [(pc0.gen, sig)] } := by
              simp [wstep, handleSignal, hpx, hd0]
            intro X pc hX hd
            rw [heq] at hX ⊢
            by_cases hXs : X = src
            · subst hXs
              exact h X pc0 hpx (by simpa using hd0)
            · rw [jget_jset_ne _ hXs] at hX
              exact h X pc hX hd
  | create peerId ini =>
      cases hpx : jget s.peers peerId with
      | some pc0 =>
          by_cases hd0 : pc0.destroyed = true
          · have heq : wstep s (.create peerId ini) =
                applyPendingSignals
                  { s with peers := jset (jdel s.peers peerId) peerId ⟨peerId, s.counter, ini, false, []⟩,
                           counter := s.counter + 1 } peerId := by
              simp [wstep, createPeer, hpx, hd0]
            obtain ⟨_, h2, _, h4, h5⟩ :=
              applyPendingSignals_live
                { s with peers := jset (jdel s.peers peerId) peerId ⟨peerId, s.counter, ini, false, []⟩,
                         counter := s.counter + 1 }
                peerId ⟨peerId, s.counter, ini, false, []⟩ (jget_jset_self _ _ _) rfl
            intro X pc hX hd
            rw [heq] at hX ⊢
            by_cases hXs : X = peerId
            · subst hXs; exact h2
            · rw [h5 X hXs]
              rw [h4 X hXs] at hX
              simp only at hX
              rw [jget_jset_ne _ hXs, jget_jdel_ne _ hXs] at hX
              exact h X pc hX hd
          · have heq : wstep s (.create peerId ini) = s := by
              simp [wstep, createPeer, hpx, hd0]
            rw [heq]; exact h
      | none =>
          have heq : wstep s (.create peerId ini) =
              applyPendingSignals
                { s with peers := jset s.peers peerId ⟨peerId, s.counter, ini, false, []⟩,
                         counter := s.counter + 1 } peerId := by
            simp [wstep, createPeer, hpx]
          obtain ⟨_, h2, _, h4, h5⟩ :=
            applyPendingSignals_live
              { s with peers := jset s.peers peerId ⟨peerId, s.counter, ini, false, []⟩,
                       counter := s.counter + 1 }
              peerId ⟨peerId, s.counter, ini, false, []⟩ (jget_jset_self _ _ _) rfl
          intro X pc hX hd
          rw [heq] at hX ⊢
          by_cases hXs : X = peerId
          · subst hXs; exact h2
          · rw [h5 X hXs]
            rw [h4 X hXs] at hX
            simp only at hX
            rw [jget_jset_ne _ hXs] at hX
            exact h X pc hX hd
  | remove peerId =>
      cases hpx : jget s.peers peerId with
      | none =>
          have heq : wstep s (.remove peerId) = s := by
            simp [wstep, removePeer, hpx]
          rw [heq]; exact h
      | some pc0 =>
          by_cases hd0 : pc0.destroyed = true
          · have heq : wstep s (.remove peerId) = s := by
              simp [wstep, removePeer, hpx, hd0]
            rw [heq]; exact h
          · have heq : wstep s (.remove peerId) =
                { s with
                  peers := jdel (jset s.peers peerId { pc0 with destroyed := true }) peerId,
                  pending := jdel s.pending peerId } := by
              simp [wstep, removePeer, hpx, hd0]
            intro X pc hX hd
            rw [heq] at hX ⊢
            by_cases hXs : X = peerId
            · subst hXs
              rw [jget_jdel_self] at hX
              exact Option.noConfusion hX
            · rw [jget_jdel_ne _ hXs, jget_jset_ne _ hXs] at hX
              rw [jget_jdel_ne _ hXs]
              exact h X pc hX hd
  | closeAll =>
      intro X pc hX hd
      simp [wstep, closeAllConnections, jget] at hX
  | markC peerId =>
      cases hpx : jget s.peers peerId with
      | none =>
          have heq : wstep s (.markC peerId) = s := by
            simp [wstep, markClosed, hpx]
          rw [heq]; exact h
      | some pc0 =>
          have heq : wstep s (.markC peerId) =
              { s with peers := jset s.peers peerId { pc0 with destroyed := true } } := by
            simp [wstep, markClosed, hpx]
          intro X pc hX hd
          rw [heq] at hX ⊢
          by_cases hXs : X = peerId
          · subst hXs
            rw [jget_jset_self] at hX
            injection hX with he; subst he
            exact Bool.noConfusion hd
          · rw [jget_jset_ne _ hXs] at hX
            exact h X pc hX hd

theorem liveQueueInv_run (ops : List WOp) (s : RTCState) (h : LiveQueueInv s) :
    LiveQueueInv (wrun s ops) := by
  induction ops generalizing s with
  | nil => exact h
  | cons op rest ih => exact ih (wstep s op) (liveQueueInv_step s op h)

/-- **C4.** At every state reachable by the Peer Lifecycle Manager, no
peer id simultaneously has a live (non-destroyed) entry and a non-empty
pending queue (the queue key is absent whenever the entry is live); and
a signal for a live connection is applied to it directly (its `applied`
list grows) instead of being queued (the queues are untouched). -/
theorem c4_live_excludes_pending (ops : List WOp) (X : String) :
    (∀ pc, jget (wrun RTCState.init ops).peers X = some pc → pc.destroyed = false →
      jget (wrun RTCState.init ops).pending X = none) ∧
    (∀ s pc (sig : Sig), jget s.peers X = some pc → pc.destroyed = false →
      (handleSignal s sig X).pending = s.pending ∧
      jget (handleSignal s sig X).peers X
        = some { pc with applied := pc.applied ++ [sig] }) := by
  constructor
  · intro pc hX hd
    refine liveQueueInv_run ops RTCState.init ?_ X pc hX hd
    intro Y pc0 hY hd0
    simp [RTCState.init, jget] at hY
  · intro s pc sig hX hd
    have heq : handleSignal s sig X =
        { s with
          peers := jset s.peers X { pc with applied := pc.applied ++ [sig] },
          log := s.log ++ [(pc.gen, sig)] } := by
      simp [handleSignal, hX, hd]
    rw [heq]
    exact ⟨rfl, jget_jset_self _ _ _⟩

/-- A reachable state for exercising C4: a connection for `a` was created
and then received a direct signal. -/
def c4ExampleState : RTCState :=
  wrun RTCState.init [WOp.create "a" true, WOp.hsig "a" 3]

theorem c4_live_excludes_pending_witness :
    (jget c4ExampleState.peers "a" = some ⟨"a", 0, true, false, [3]⟩ ∧
     (⟨"a", 0, true, false, [3]⟩ : PeerConn).destroyed = false ∧
     jget c4ExampleState.pending "a" = none) ∧
    ((handleSignal c4ExampleState 9 "a").pending = c4ExampleState.pending ∧
     jget (handleSignal c4ExampleState 9 "a").peers "a"
        = some ⟨"a", 0, true, false, [3, 9]⟩) := by
  refine ⟨⟨by decide, by decide, ?_⟩, ?_, ?_⟩
  · exact (c4_live_excludes_pending [WOp.create "a" true, WOp.hsig "a" 3] "a").1
      ⟨"a", 0, true, false, [3]⟩ (by decide) (by decide)
  · exact ((c4_live_excludes_pending [] "a").2 c4ExampleState
      ⟨"a", 0, true, false, [3]⟩ 9 (by decide) (by decide)).1
  · exact ((c4_live_excludes_pending [] "a").2 c4ExampleState
      ⟨"a", 0, true, false, [3]⟩ 9 (by decide) (by decide)).2

/-! ## Claim C10 -/

/-- **C10.** `removePeer peerId` is a no-op (the whole state, in
particular the peers map and the pending queues, is unchanged) when no
entry exists for `peerId` or when the existing entry is already marked
destroyed; a destroyed entry and its queued signals are purged by a later
`createPeer` for the same peer id, which installs a fresh live entry and
deletes the queue. -/
theorem c10_removePeer_noop (s : RTCState) (X : String) :
    (jget s.peers X = none → removePeer s X = s) ∧
    (∀ pc, jget s.peers X = some pc → pc.destroyed = true → removePeer s X = s) ∧
    (∀ pc, jget s.peers X = some pc → pc.destroyed = true → ∀ ini,
      ∃ pcN, jget (createPeer s X ini).peers X = some pcN ∧ pcN.destroyed = false ∧
        pcN.applied = (jget s.pending X).getD [] ∧
        jget (createPeer s X ini).pending X = none) := by
  refine ⟨fun h => by simp [removePeer, h],
    fun pc hX hd => by simp [removePeer, hX, hd], ?_⟩
  intro pc hX hd ini
  have hcp : createPeer s X ini =
      applyPendingSignals
        { s with peers := jset (jdel s.peers X) X ⟨X, s.counter, ini, false, []⟩,
                 counter := s.counter + 1 } X := by
    simp [createPeer, hX, hd]
  obtain ⟨h1, h2, _, _, _⟩ :=
    applyPendingSignals_live
      { s with peers := jset (jdel s.peers X) X ⟨X, s.counter, ini, false, []⟩,
               counter := s.counter + 1 }
      X ⟨X, s.counter, ini, false, []⟩ (jget_jset_self _ _ _) rfl
  exact ⟨_, by rw [hcp]; exact h1, rfl, by simp, by rw [hcp]; exact h2⟩

/-- A state with a destroyed entry for `a` whose queue holds one signal
(queued after the entry was marked destroyed), for exercising C10. -/
def c10ExampleState : RTCState :=
  wrun RTCState.init [WOp.create "a" true, WOp.markC "a", WOp.hsig "a" 4]

theorem c10_removePeer_noop_witness :
    (jget c10ExampleState.peers "z" = none ∧
     removePeer c10ExampleState "z" = c10ExampleState) ∧
    (jget c10ExampleState.peers "a" = some ⟨"a", 0, true, true, []⟩ ∧
     (⟨"a", 0, true, true, []⟩ : PeerConn).destroyed = true ∧
     removePeer c10ExampleState "a" = c10ExampleState) ∧
    (∃ pcN, jget (createPeer c10ExampleState "a" false).peers "a" = some pcN ∧
      pcN.destroyed = false ∧
      pcN.applied = (jget c10ExampleState.pending "a").getD [] ∧
      jget (createPeer c10ExampleState "a" false).pending "a" = none) :=
  ⟨⟨by decide, (c10_removePeer_noop c10ExampleState "z").1 (by decide)⟩,
   ⟨by decide, by decide,
    (c10_removePeer_noop c10ExampleState "a").2.1 ⟨"a", 0, true, true, []⟩
      (by decide) (by decide)⟩,
   (c10_removePeer_noop c10ExampleState "a").2.2 ⟨"a", 0, true, true, []⟩
     (by decide) (by decide) false⟩

/-! ## Claim C8 -/

theorem jget_mem {α β : Type} [DecidableEq α] {m : List (α × β)} {k : α} {v : β}
    (h : jget m k = some v) : (k, v) ∈ m := by
  induction m with
  | nil => exact Option.noConfusion h
  | cons kv t ih =>
      by_cases h1 : kv.1 = k
      · rw [jget, if_pos h1] at h
        injection h with h2
        have hkv : kv = (k, v) := Prod.ext h1 h2
        rw [← hkv]
        exact List.mem_cons_self _ _
      · rw [jget, if_neg h1] at h
        exact List.mem_cons_of_mem _ (ih h)

theorem mem_jset {α β : Type} [DecidableEq α] {m : List (α × β)} {k : α} {v : β}
    {kv : α × β} (h : kv ∈ jset m k v) : kv = (k, v) ∨ kv ∈ m := by
  induction m with
  | nil => simpa [jset] using h
  | cons kv0 t ih =>
      by_cases h1 : kv0.1 = k
      · rw [jset, if_pos h1] at h
        rcases List.mem_cons.1 h with h2 | h2
        · exact Or.inl h2
        · exact Or.inr (List.mem_cons_of_mem _ h2)
      · rw [jset, if_neg h1] at h
        rcases List.mem_cons.1 h with h2 | h2
        · exact Or.inr (h2 ▸ List.mem_cons_self _ _)
        · rcases ih h2 with h3 | h3
          · exact Or.inl h3
          · exact Or.inr (List.mem_cons_of_mem _ h3)

theorem mem_jdel {α β : Type} [DecidableEq α] {m : List (α × β)} {k : α}
    {kv : α × β} (h : kv ∈ jdel m k) : kv ∈ m :=
  List.mem_of_mem_filter h

/-- Generation lower bound: every stored connection has generation at
least `c` and the counter is at least `c`. Holds of any state whose
counter started at `c` with an empty peer map, and separates "old"
connections (generation below `c`) from ones created later. -/
def GenLB (c : Nat) (s : RTCState) : Prop :=
  c ≤ s.counter ∧ ∀ kv ∈ s.peers, c ≤ kv.2.gen

theorem genLB_applySigOnce (c : Nat) (X : String) (sig : Sig) (t : RTCState)
    (h : GenLB c t) :
    GenLB c (applySigOnce t X sig) ∧
    ∃ d, (applySigOnce t X sig).log = t.log ++ d ∧ ∀ e ∈ d, c ≤ e.1 := by
  cases hpx : jget t.peers X with
  | none =>
      have heq : applySigOnce t X sig = t := by simp [applySigOnce, hpx]
      rw [heq]
      exact ⟨h, [], by simp, by simp⟩
  | some pc =>
      by_cases hd : pc.destroyed = true
      · have heq : applySigOnce t X sig = t := by simp [applySigOnce, hpx, hd]
        rw [heq]
        exact ⟨h, [], by simp, by simp⟩
      · have heq : applySigOnce t X sig =
            { t with
              peers := jset t.peers X { pc with applied := pc.applied ++ [sig] },
              log := t.log ++ [(pc.gen, sig)] } := by
          simp [applySigOnce, hpx, hd]
        rw [heq]
        refine ⟨⟨h.1, ?_⟩, [(pc.gen, sig)], rfl, ?_⟩
        · intro kv hkv
          rcases mem_jset hkv with h1 | h1
          · rw [h1]
            simpa using h.2 _ (jget_mem hpx)
          · exact h.2 _ h1
        · intro e he
          rcases List.mem_singleton.1 he with rfl
          exact h.2 _ (jget_mem hpx)

theorem genLB_applySig_foldl (c : Nat) (X : String) (sigs : List Sig) (t : RTCState)
    (h : GenLB c t) :
    GenLB c (sigs.foldl (fun acc sg => applySigOnce acc X sg) t) ∧
    ∃ d, (sigs.foldl (fun acc sg => applySigOnce acc X sg) t).log = t.log ++ d ∧
      ∀ e ∈ d, c ≤ e.1 := by
  induction sigs generalizing t with
  | nil => exact ⟨h, [], by simp, by simp⟩
  | cons s0 rest ih =>
      obtain ⟨h1, d1, hd1, hb1⟩ := genLB_applySigOnce c X s0 t h
      obtain ⟨h2, d2, hd2, hb2⟩ := ih (applySigOnce t X s0) h1
      refine ⟨h2, d1 ++ d2, ?_, ?_⟩
      · rw [List.foldl_cons, hd2, hd1, List.append_assoc]
      · intro e he
        rcases List.mem_append.1 he with h3 | h3
        · exact hb1 e h3
        · exact hb2 e h3

theorem genLB_applyPending (c : Nat) (X : String) (t : RTCState) (h : GenLB c t) :
    GenLB c (applyPendingSignals t X) ∧
    ∃ d, (applyPendingSignals t X).log = t.log ++ d ∧ ∀ e ∈ d, c ≤ e.1 := by
  cases hq : jget t.pending X with
  | none =>
      have heq : applyPendingSignals t X = t := by simp [applyPendingSignals, hq]
      rw [heq]
      exact ⟨h, [], by simp, by simp⟩
  | some sigs =>
      have heq : applyPendingSignals t X =
          { (sigs.foldl (fun acc sg => applySigOnce acc X sg) t) with
            pending := jdel (sigs.foldl (fun acc sg => applySigOnce acc X sg) t).pending X } := by
        simp [applyPendingSignals, hq]
      obtain ⟨⟨h1, h2⟩, d, hd, hb⟩ := genLB_applySig_foldl c X sigs t h
      rw [heq]
      exact ⟨⟨h1, h2⟩, d, hd, hb⟩

theorem genLB_step (c : Nat) (s : RTCState) (op : WOp) (h : GenLB c s) :
    GenLB c (wstep s op) ∧
    ∃ d, (wstep s op).log = s.log ++ d ∧ ∀ e ∈ d, c ≤ e.1 := by
  cases op with
  | hsig src sig =>
      cases hpx : jget s.peers src with
      | none =>
          have heq : wstep s (.hsig src sig) =
              { s with pending := jset s.pending src ((jget s.pending src).getD [] ++ [sig]) } := by
            simp [wstep, handleSignal, hpx]
          rw [heq]
          exact ⟨⟨h.1, h.2⟩, [], by simp, by simp⟩
      | some pc =>
          by_cases hd : pc.destroyed = true
          · have heq : wstep s (.hsig src sig) =
                { s with pending := jset s.pending src ((jget s.pending src).getD [] ++ [sig]) } := by
              simp [wstep, handleSignal, hpx, hd]
            rw [heq]
            exact ⟨⟨h.1, h.2⟩, [], by simp, by simp⟩
          · have heq : wstep s (.hsig src sig) =
                { s with
                  peers := jset s.peers src { pc with applied := pc.applied ++ [sig] },
                  log := s.log ++ [(pc.gen, sig)] } := by
              simp [wstep, handleSignal, hpx, hd]
            rw [heq]
            refine ⟨⟨h.1, ?_⟩, [(pc.gen, sig)], rfl, ?_⟩
            · intro kv hkv
              rcases mem_jset hkv with h1 | h1
              · rw [h1]
                simpa using h.2 _ (jget_mem hpx)
              · exact h.2 _ h1
            · intro e he
              rcases List.mem_singleton.1 he with rfl
              exact h.2 _ (jget_mem hpx)
  | create peerId ini =>
      cases hpx : jget s.peers peerId with
      | some pc =>
          by_cases hd : pc.destroyed = true
          · have heq : wstep s (.create peerId ini) =
                applyPendingSignals
                  { s with
                    peers := jset (jdel s.peers peerId) peerId ⟨peerId, s.counter, ini, false, []⟩,
                    counter := s.counter + 1 } peerId := by
              simp [wstep, createPeer, hpx, hd]
            rw [heq]
            refine genLB_applyPending c peerId _ ⟨Nat.le_succ_of_le h.1, ?_⟩
            intro kv hkv
            rcases mem_jset hkv with h1 | h1
            · rw [h1]
              exact h.1
            · exact h.2 _ (mem_jdel h1)
          · have heq : wstep s (.create peerId ini) = s := by
              simp [wstep, createPeer, hpx, hd]
            rw [heq]
            exact ⟨h, [], by simp, by simp⟩
      | none =>
          have heq : wstep s (.create peerId ini) =
              applyPendingSignals
                { s with
                  peers := jset s.peers peerId ⟨peerId, s.counter, ini, false, []⟩,
                  counter := s.counter + 1 } peerId := by
            simp [wstep, createPeer, hpx]
          rw [heq]
          refine genLB_applyPending c peerId _ ⟨Nat.le_succ_of_le h.1, ?_⟩
          intro kv hkv
          rcases mem_jset hkv with h1 | h1
          · rw [h1]
            exact h.1
          · exact h.2 _ h1
  | remove peerId =>
      cases hpx : jget s.peers peerId with
      | none =>
          have heq : wstep s (.remove peerId) = s := by
            simp [wstep, removePeer, hpx]
          rw [heq]
          exact ⟨h, [], by simp, by simp⟩
      | some pc =>
          by_cases hd : pc.destroyed = true
          · have heq : wstep s (.remove peerId) = s := by
              simp [wstep, removePeer, hpx, hd]
            rw [heq]
            exact ⟨h, [], by simp, by simp⟩
          · have heq : wstep s (.remove peerId) =
                { s with
                  peers := jdel (jset s.peers peerId { pc with destroyed := true }) peerId,
                  pending := jdel s.pending peerId } := by
              simp [wstep, removePeer, hpx, hd]
            rw [heq]
            refine ⟨⟨h.1, ?_⟩, [], by simp, by simp⟩
            intro kv hkv
            rcases mem_jset (mem_jdel hkv) with h1 | h1
            · rw [h1]
              simpa using h.2 _ (jget_mem hpx)
            · exact h.2 _ h1
  | closeAll =>
      exact ⟨⟨h.1, by simp [wstep, closeAllConnections]⟩, [],
        by simp [wstep, closeAllConnections], by simp⟩
  | markC peerId =>
      cases hpx : jget s.peers peerId with
      | none =>
          have heq : wstep s (.markC peerId) = s := by
            simp [wstep, markClosed, hpx]
          rw [heq]
          exact ⟨h, [], by simp, by simp⟩
      | some pc =>
          have heq : wstep s (.markC peerId) =
              { s with peers := jset s.peers peerId { pc with destroyed := true } } := by
            simp [wstep, markClosed, hpx]
          rw [heq]
          refine ⟨⟨h.1, ?_⟩, [], by simp, by simp⟩
          intro kv hkv
          rcases mem_jset hkv with h1 | h1
          · rw [h1]
            simpa using h.2 _ (jget_mem hpx)
          · exact h.2 _ h1

theorem genLB_run (c : Nat) (ops : List WOp) (s : RTCState) (h : GenLB c s) :
    GenLB c (wrun s ops) ∧
    ∃ d, (wrun s ops).log = s.log ++ d ∧ ∀ e ∈ d, c ≤ e.1 := by
  induction ops generalizing s with
  | nil => exact ⟨h, [], by simp [wrun], by simp⟩
  | cons op rest ih =>
      obtain ⟨h1, d1, hd1, hb1⟩ := genLB_step c s op h
      obtain ⟨h2, d2, hd2, hb2⟩ := ih (wstep s op) h1
      refine ⟨h2, d1 ++ d2, ?_, ?_⟩
      · show (wrun (wstep s op) rest).log = _
        rw [hd2, hd1, List.append_assoc]
      · intro e he
        rcases List.mem_append.1 he with h3 | h3
        · exact hb1 e h3
        · exact hb2 e h3

theorem mark_before_destroy (peers : List (String × PeerConn)) (X : String)
    (h : jhas peers X = true) :
    List.Sublist [TearEvent.mark X, TearEvent.destroy X]
      (peers.flatMap fun kv => [TearEvent.mark kv.1, TearEvent.destroy kv.1]) := by
  induction peers with
  | nil => simp [jhas, jget] at h
  | cons kv t ih =>
      by_cases h1 : kv.1 = X
      · subst h1
        exact List.Sublist.cons₂ _ (List.Sublist.cons₂ _ (List.nil_sublist _))
      · have h2 : jhas t X = true := by
          simpa [jhas, jget, h1] using h
        exact ((ih h2).cons _).cons _

/-- A state with live connections to `a` and `b` (in that insertion
order), for exercising C8. -/
def c8ExampleState : RTCState :=
  wrun RTCState.init [WOp.create "a" true, WOp.create "b" false]

/-- **C8 (counterexample).** The claim says `closeAllConnections` first
marks every entry destroyed and only then destroys each underlying
connection. On a state with two peers the `forEach` body interleaves:
the event trace destroys `a`'s underlying connection strictly before
`b`'s entry is marked destroyed, so the two-phase ordering asserted by
the claim is false. -/
theorem c8_teardown_counterexample :
    closeAllEvents c8ExampleState =
      [TearEvent.mark "a", TearEvent.destroy "a",
       TearEvent.mark "b", TearEvent.destroy "b"] ∧
    List.Sublist [TearEvent.destroy "a", TearEvent.mark "b"]
      (closeAllEvents c8ExampleState) := by
  have h1 : closeAllEvents c8ExampleState =
      [TearEvent.mark "a", TearEvent.destroy "a",
       TearEvent.mark "b", TearEvent.destroy "b"] := by decide
  refine ⟨h1, ?_⟩
  rw [h1]
  exact (List.Sublist.cons₂ _ (List.Sublist.cons₂ _ (List.nil_sublist _))).cons _

/-- **C8 (amended).** `closeAllConnections` tears entries down one at a
time, marking each entry destroyed immediately before destroying that
entry's underlying connection (so every connection's mark precedes its
own destruction in the event trace, though marks and destroys of
distinct entries interleave); after it returns, the peer map and all
pending-signal queues are empty, and no subsequently arriving signal for
any previously known peer id is ever applied to a connection from the
old map (the post-teardown signal log never names an old connection's
generation). -/
theorem c8_mark_then_destroy_and_quiescence (s : RTCState)
    (hInv : ∀ kv ∈ s.peers, kv.2.gen < s.counter) :
    (closeAllConnections s).peers = [] ∧
    (closeAllConnections s).pending = [] ∧
    (∀ X, jhas s.peers X = true →
      List.Sublist [TearEvent.mark X, TearEvent.destroy X] (closeAllEvents s)) ∧
    (∀ (ops : List WOp) (X : String) (pcOld : PeerConn),
      jget s.peers X = some pcOld →
      ∀ e ∈ (wrun (closeAllConnections s) ops).log.drop s.log.length,
        e.1 ≠ pcOld.gen) := by
  refine ⟨rfl, rfl, fun X hX => mark_before_destroy s.peers X hX, ?_⟩
  intro ops X pcOld hX e he hgen
  have hlb : GenLB s.counter (closeAllConnections s) :=
    ⟨le_refl _, fun kv hkv => absurd hkv (List.not_mem_nil _)⟩
  obtain ⟨_, d, hd, hb⟩ := genLB_run s.counter ops (closeAllConnections s) hlb
  have hd' : (wrun (closeAllConnections s) ops).log = s.log ++ d := hd
  rw [hd', List.drop_left] at he
  have h1 : s.counter ≤ e.1 := hb e he
  have h2 : pcOld.gen < s.counter := hInv _ (jget_mem hX)
  rw [hgen] at h1
  exact absurd h2 (not_lt.2 h1)

theorem c8_mark_then_destroy_and_quiescence_witness :
    (∀ kv ∈ c8ExampleState.peers, kv.2.gen < c8ExampleState.counter) ∧
    ((closeAllConnections c8ExampleState).peers = [] ∧
     (closeAllConnections c8ExampleState).pending = [] ∧
     (∀ X, jhas c8ExampleState.peers X = true →
       List.Sublist [TearEvent.mark X, TearEvent.destroy X]
         (closeAllEvents c8ExampleState)) ∧
     (∀ (ops : List WOp) (X : String) (pcOld : PeerConn),
       jget c8ExampleState.peers X = some pcOld →
       ∀ e ∈ (wrun (closeAllConnections c8ExampleState) ops).log.drop
           c8ExampleState.log.length,
         e.1 ≠ pcOld.gen)) :=
  ⟨by decide, c8_mark_then_destroy_and_quiescence c8ExampleState (by decide)⟩

/-! ## Session Gateway and Room Registry (`src/server.js`)

Server state: `rooms` and `users` are the two `Map`s of `server.js`;
`sioRooms` models Socket.IO channel membership (which sockets a
`io.to(roomId).emit(...)` broadcast reaches), maintained by
`socket.join` / `socket.leave` and cleared for a socket on disconnect.
Handlers return the next state together with the list of emitted
messages. -/

/-- Chat message sender: either a plain string or a structured object
whose `name` field may be absent. -/
inductive Sender where
  | str (s : String)
  | obj (nm : Option String)
  deriving DecidableEq, Repr

structure ChatMsg where
  id : String
  sender : Sender
  text : String
  timestamp : Nat
  deriving DecidableEq, Repr

/-- A user record as built by the `join-room` handler
(`server.js` lines 30-35), with the media flags that `update-media` can
merge in later (absent until first set). -/
structure UserRec where
  id : String
  socketId : String
  name : String
  roomId : String
  audioEnabled : Option Bool
  videoEnabled : Option Bool
  isScreenSharing : Option Bool
  deriving DecidableEq, Repr

structure Room where
  id : String
  users : List UserRec
  messages : List ChatMsg
  deriving DecidableEq, Repr

/-- Partial media update: only the present fields are merged. -/
structure MediaUpdates where
  audioEnabled : Option Bool
  videoEnabled : Option Bool
  isScreenSharing : Option Bool
  deriving DecidableEq, Repr

inductive Target where
  | toRoom (roomId : String)
  | toSock (sockId : String)
  deriving DecidableEq, Repr

inductive Payload where
  | userJoined (u : UserRec) (roster : List UserRec)
  | roomInfo (room : Room)
  | userLeft (userId : String) (roster : List UserRec)
  | signalMsg (sig : Sig) (srcId : String)
  | mediaUpdated (userId : String) (updates : MediaUpdates)
  | newMessage (m : ChatMsg)
  deriving DecidableEq, Repr

abbrev Emit := Target × Payload

structure SrvState where
  rooms : List (String × Room)
  users : List (String × UserRec)
  sioRooms : List (String × List String)
  deriving DecidableEq, Repr

def SrvState.init : SrvState := ⟨[], [], []⟩

/-- `socket.join(roomId)`: add the socket to the channel (idempotent). -/
def sioJoin (m : List (String × List String)) (roomId sock : String) :
    List (String × List String) :=
  let members := (jget m roomId).getD []
  if sock ∈ members then m else jset m roomId (members ++ [sock])

/-- `socket.leave(roomId)`. -/
def sioLeave (m : List (String × List String)) (roomId sock : String) :
    List (String × List String) :=
  match jget m roomId with
  | none => m
  | some ms => jset m roomId (ms.filter fun t => decide (t ≠ sock))

/-- On transport closure Socket.IO removes the socket from every
channel. -/
def sioDisc (m : List (String × List String)) (sock : String) :
    List (String × List String) :=
  m.map fun kv => (kv.1, kv.2.filter fun t => decide (t ≠ sock))

/-- The sockets a broadcast to `roomId` reaches. -/
def sioMembers (s : SrvState) (roomId : String) : List String :=
  (jget s.sioRooms roomId).getD []

/-- Expand emitted messages into per-socket deliveries: a room-targeted
emit reaches every socket currently in the channel. -/
def deliveries (s : SrvState) (es : List Emit) : List (String × Payload) :=
  es.flatMap fun e =>
    match e.1 with
    | .toRoom r => ((jget s.sioRooms r).getD []).map fun t => (t, e.2)
    | .toSock t => [(t, e.2)]

/-- `const userId = user.id || uuidv4()` (`server.js` line 29): a missing
or empty (JS-falsy) id is replaced by a fresh uuid. -/
def resolveId (uid : Option String) (fresh : String) : String :=
  match uid with
  | some u => if u = "" then fresh else u
  | none => fresh

/-- `join-room` handler (`server.js` lines 26-68). -/
def joinRoom (s : SrvState) (sock roomId : String) (uid : Option String)
    (fresh nm : String) : SrvState × List Emit :=
  let userId := resolveId uid fresh
  let newUser : UserRec := ⟨userId, sock, nm, roomId, none, none, none⟩
  let users' := jset s.users sock newUser
  let sior := sioJoin s.sioRooms roomId sock
  let rooms1 := if jhas s.rooms roomId then s.rooms else jset s.rooms roomId ⟨roomId, [], []⟩
  let room := (jget rooms1 roomId).getD ⟨roomId, [], []⟩
  let room' := { room with users := room.users ++ [newUser] }
  (⟨jset rooms1 roomId room', users', sior⟩,
   [(.toRoom roomId, .userJoined newUser room'.users), (.toSock sock, .roomInfo room')])

/-- `leave-room` handler (`server.js` lines 71-100). -/
def leaveRoom (s : SrvState) (sock roomId userId : String) : SrvState × List Emit :=
  match jget s.rooms roomId with
  | none => (s, [])
  | some room =>
      let remaining := room.users.filter fun u => decide (u.id ≠ userId)
      let rooms' := if remaining.isEmpty then jdel s.rooms roomId
                    else jset s.rooms roomId { room with users := remaining }
      (⟨rooms', jdel s.users sock, sioLeave s.sioRooms roomId sock⟩,
       [(.toRoom roomId, .userLeft userId remaining)])

/-- `signal` handler (`server.js` lines 103-121): resolve the sender from
its socket, find the first user whose stable id equals `to` (iterating
`users.values()` in insertion order), and emit to that user's socket;
silently skip when either lookup fails. -/
def relaySignal (s : SrvState) (sock : String) (sig : Sig) (toId : String) :
    SrvState × List Emit :=
  match jget s.users sock with
  | none => (s, [])
  | some fromUser =>
      match (s.users.map Prod.snd).find? (fun u => decide (u.id = toId)) with
      | some target => (s, [(.toSock target.socketId, .signalMsg sig fromUser.id)])
      | none => (s, [])

/-- `{...room.users[userIndex], ...updates}`: fields present in the
update override, all others are kept. -/
def mergeUpdates (u : UserRec) (upd : MediaUpdates) : UserRec :=
  { u with
    audioEnabled := match upd.audioEnabled with | some v => some v | none => u.audioEnabled,
    videoEnabled := match upd.videoEnabled with | some v => some v | none => u.videoEnabled,
    isScreenSharing := match upd.isScreenSharing with | some v => some v | none => u.isScreenSharing }

/-- `findIndex` + in-place assignment at the found index: update the
first element satisfying the predicate, keep everything else. -/
def setFirstMatch {γ : Type} (p : γ → Bool) (f : γ → γ) : List γ → List γ
  | [] => []
  | a :: t => if p a then f a :: t else a :: setFirstMatch p f t

/-- `update-media` handler (`server.js` lines 124-149). -/
def updateMedia (s : SrvState) (roomId userId : String) (upd : MediaUpdates) :
    SrvState × List Emit :=
  match jget s.rooms roomId with
  | none => (s, [])
  | some room =>
      if room.users.any (fun u => decide (u.id = userId)) then
        let users' := setFirstMatch (fun u => decide (u.id = userId))
          (fun u => mergeUpdates u upd) room.users
        (⟨jset s.rooms roomId { room with users := users' }, s.users, s.sioRooms⟩,
         [(.toRoom roomId, .mediaUpdated userId upd)])
      else (s, [])

/-- `send-message` handler (`server.js` lines 152-177): when the inbound
sender is a structured object it is replaced by `sender.name ||
'Unknown'` (JS `||`, so an absent *or empty* name yields `"Unknown"`);
the message is appended to history and broadcast. -/
def sendMessage (s : SrvState) (roomId : String) (msg : ChatMsg) :
    SrvState × List Emit :=
  match jget s.rooms roomId with
  | none => (s, [])
  | some room =>
      let msg' := match msg.sender with
        | .str _ => msg
        | .obj nm =>
            { msg with
              sender := .str (match nm with
                | some n => if n = "" then "Unknown" else n
                | none => "Unknown") }
      let room' := { room with messages := room.messages ++ [msg'] }
      (⟨jset s.rooms roomId room', s.users, s.sioRooms⟩,
       [(.toRoom roomId, .newMessage msg')])

/-- `disconnect` handler (`server.js` lines 180-211): acts only when the
socket is bound to a user with a truthy `roomId`; removes the user from
that room, deleting the room when it empties and broadcasting a
left-event only when it does not. -/
def disconnectSock (s : SrvState) (sock : String) : SrvState × List Emit :=
  let sior := sioDisc s.sioRooms sock
  match jget s.users sock with
  | none => (⟨s.rooms, s.users, sior⟩, [])
  | some user =>
      if user.roomId = "" then (⟨s.rooms, s.users, sior⟩, [])
      else
        match jget s.rooms user.roomId with
        | none => (⟨s.rooms, jdel s.users sock, sior⟩, [])
        | some room =>
            let remaining := room.users.filter fun u => decide (u.id ≠ user.id)
            if remaining.isEmpty then
              (⟨jdel s.rooms user.roomId, jdel s.users sock, sior⟩, [])
            else
              (⟨jset s.rooms user.roomId { room with users := remaining },
                jdel s.users sock, sior⟩,
               [(.toRoom user.roomId, .userLeft user.id remaining)])

/-! ## Server behavior lemmas -/

theorem jhas_eq_false_iff {α β : Type} [DecidableEq α] (m : List (α × β)) (k : α) :
    jhas m k = false ↔ jget m k = none := by
  cases h : jget m k <;> simp [jhas, h]

theorem sioJoin_mem (m : List (String × List String)) (roomId sock : String) :
    sock ∈ (jget (sioJoin m roomId sock) roomId).getD [] := by
  unfold sioJoin
  by_cases h : sock ∈ (jget m roomId).getD []
  · rw [if_pos h]
    exact h
  · rw [if_neg h, jget_jset_self]
    simp

/-! ## Claim C5 -/

/-- **C5.** `join-room` broadcasts the joined-event — carrying the new
participant and the full updated roster — to every socket currently in
the room channel, which includes the newly joined socket itself (it
joined the channel before the emit), and additionally sends the full
room snapshot to the joiner. The roster in the event is the snapshot's
roster, ending with the new participant. -/
theorem c5_join_broadcast_includes_joiner (s : SrvState) (sock roomId : String)
    (uid : Option String) (fresh nm : String) :
    ∃ room',
      jget (joinRoom s sock roomId uid fresh nm).1.rooms roomId = some room' ∧
      (joinRoom s sock roomId uid fresh nm).2 =
        [(.toRoom roomId,
          .userJoined ⟨resolveId uid fresh, sock, nm, roomId, none, none, none⟩ room'.users),
         (.toSock sock, .roomInfo room')] ∧
      (∃ prev, room'.users =
        prev ++ [⟨resolveId uid fresh, sock, nm, roomId, none, none, none⟩]) ∧
      sock ∈ sioMembers (joinRoom s sock roomId uid fresh nm).1 roomId ∧
      (∀ t ∈ sioMembers (joinRoom s sock roomId uid fresh nm).1 roomId,
        (t, Payload.userJoined ⟨resolveId uid fresh, sock, nm, roomId, none, none, none⟩
            room'.users) ∈
          deliveries (joinRoom s sock roomId uid fresh nm).1
            (joinRoom s sock roomId uid fresh nm).2) ∧
      (sock, Payload.roomInfo room') ∈
        deliveries (joinRoom s sock roomId uid fresh nm).1
          (joinRoom s sock roomId uid fresh nm).2 := by
  refine ⟨_, jget_jset_self _ _ _, rfl, ⟨_, rfl⟩, ?_, ?_, ?_⟩
  · exact sioJoin_mem s.sioRooms roomId sock
  · intro t ht
    simp only [deliveries, List.flatMap_cons, List.flatMap_nil, List.append_nil]
    exact List.mem_append_left _ (List.mem_map_of_mem _ ht)
  · simp only [deliveries, List.flatMap_cons, List.flatMap_nil, List.append_nil]
    exact List.mem_append_right _ (by simp)

theorem c5_join_broadcast_includes_joiner_witness :
    ∃ room',
      jget (joinRoom SrvState.init "t1" "r" (some "alice") "f" "Alice").1.rooms "r"
        = some room' ∧
      (joinRoom SrvState.init "t1" "r" (some "alice") "f" "Alice").2 =
        [(.toRoom "r",
          .userJoined ⟨resolveId (some "alice") "f", "t1", "Alice", "r", none, none, none⟩
            room'.users),
         (.toSock "t1", .roomInfo room')] ∧
      (∃ prev, room'.users =
        prev ++ [⟨resolveId (some "alice") "f", "t1", "Alice", "r", none, none, none⟩]) ∧
      "t1" ∈ sioMembers (joinRoom SrvState.init "t1" "r" (some "alice") "f" "Alice").1 "r" ∧
      (∀ t ∈ sioMembers (joinRoom SrvState.init "t1" "r" (some "alice") "f" "Alice").1 "r",
        (t, Payload.userJoined
            ⟨resolveId (some "alice") "f", "t1", "Alice", "r", none, none, none⟩
            room'.users) ∈
          deliveries (joinRoom SrvState.init "t1" "r" (some "alice") "f" "Alice").1
            (joinRoom SrvState.init "t1" "r" (some "alice") "f" "Alice").2) ∧
      ("t1", Payload.roomInfo room') ∈
        deliveries (joinRoom SrvState.init "t1" "r" (some "alice") "f" "Alice").1
          (joinRoom SrvState.init "t1" "r" (some "alice") "f" "Alice").2 :=
  c5_join_broadcast_includes_joiner SrvState.init "t1" "r" (some "alice") "f" "Alice"

/-! ## Claim C9 -/

/-- **C9.** `leave-room` on an unknown room leaves the whole state
unchanged and emits nothing; on a known room the matching participant is
removed (every roster entry with that id is filtered out), the room is
deleted exactly when the remaining roster is empty, other rooms are
untouched, and when the roster is non-empty a left-event carrying the
updated roster is broadcast, reaching every socket still in the room
channel. -/
theorem c9_leave_room (s : SrvState) (sock roomId userId : String) :
    (jhas s.rooms roomId = false → leaveRoom s sock roomId userId = (s, [])) ∧
    (∀ room, jget s.rooms roomId = some room →
      (jget (leaveRoom s sock roomId userId).1.rooms roomId =
        (if (room.users.filter fun u => decide (u.id ≠ userId)).isEmpty then none
         else some { room with users := room.users.filter fun u => decide (u.id ≠ userId) })) ∧
      (jhas (leaveRoom s sock roomId userId).1.rooms roomId = false ↔
        (room.users.filter fun u => decide (u.id ≠ userId)).isEmpty = true) ∧
      (∀ Y, Y ≠ roomId → jget (leaveRoom s sock roomId userId).1.rooms Y = jget s.rooms Y) ∧
      ((room.users.filter fun u => decide (u.id ≠ userId)).isEmpty = false →
        (leaveRoom s sock roomId userId).2 =
          [(.toRoom roomId,
            .userLeft userId (room.users.filter fun u => decide (u.id ≠ userId)))] ∧
        ∀ t ∈ sioMembers (leaveRoom s sock roomId userId).1 roomId,
          (t, Payload.userLeft userId (room.users.filter fun u => decide (u.id ≠ userId))) ∈
            deliveries (leaveRoom s sock roomId userId).1
              (leaveRoom s sock roomId userId).2)) := by
  constructor
  · intro h
    have hn : jget s.rooms roomId = none := (jhas_eq_false_iff _ _).1 h
    simp [leaveRoom, hn]
  · intro room hroom
    by_cases he : (room.users.filter fun u => decide (u.id ≠ userId)).isEmpty = true
    · have heq : leaveRoom s sock roomId userId =
          (⟨jdel s.rooms roomId, jdel s.users sock, sioLeave s.sioRooms roomId sock⟩,
           [(.toRoom roomId,
             .userLeft userId (room.users.filter fun u => decide (u.id ≠ userId)))]) := by
        simp only [leaveRoom, hroom]
        rw [if_pos he]
      rw [heq]
      refine ⟨?_, ?_, fun Y hY => jget_jdel_ne _ hY, ?_⟩
      · rw [if_pos he]
        exact jget_jdel_self _ _
      · exact ⟨fun _ => he, fun _ => (jhas_eq_false_iff _ _).2 (jget_jdel_self _ _)⟩
      · intro hc
        rw [he] at hc
        exact Bool.noConfusion hc
    · have heq : leaveRoom s sock roomId userId =
          (⟨jset s.rooms roomId
              { room with users := room.users.filter fun u => decide (u.id ≠ userId) },
            jdel s.users sock, sioLeave s.sioRooms roomId sock⟩,
           [(.toRoom roomId,
             .userLeft userId (room.users.filter fun u => decide (u.id ≠ userId)))]) := by
        simp only [leaveRoom, hroom]
        rw [if_neg he]
      rw [heq]
      refine ⟨?_, ?_, fun Y hY => jget_jset_ne _ hY _, fun _ => ⟨rfl, ?_⟩⟩
      · rw [if_neg he]
        exact jget_jset_self _ _ _
      · refine iff_of_false ?_ he
        simp [jhas, jget_jset_self]
      · intro t ht
        simp only [deliveries, List.flatMap_cons, List.flatMap_nil, List.append_nil]
        exact List.mem_map_of_mem _ ht

/-- A two-member room for exercising C9: `alice` and `bob` joined room
`r`. -/
def c9ExampleState : SrvState :=
  (joinRoom (joinRoom SrvState.init "t1" "r" (some "alice") "f1" "Alice").1
    "t2" "r" (some "bob") "f2" "Bob").1

theorem c9_leave_room_witness :
    (jhas c9ExampleState.rooms "nope" = false ∧
     leaveRoom c9ExampleState "t9" "nope" "alice" = (c9ExampleState, [])) ∧
    (jget c9ExampleState.rooms "r" =
      some ⟨"r", [⟨"alice", "t1", "Alice", "r", none, none, none⟩,
                  ⟨"bob", "t2", "Bob", "r", none, none, none⟩], []⟩ ∧
     ((jget (leaveRoom c9ExampleState "t1" "r" "alice").1.rooms "r" =
        (if ((⟨"r", [⟨"alice", "t1", "Alice", "r", none, none, none⟩,
                     ⟨"bob", "t2", "Bob", "r", none, none, none⟩], []⟩ : Room).users.filter
              fun u => decide (u.id ≠ "alice")).isEmpty then none
         else some { (⟨"r", [⟨"alice", "t1", "Alice", "r", none, none, none⟩,
                             ⟨"bob", "t2", "Bob", "r", none, none, none⟩], []⟩ : Room) with
            users := (⟨"r", [⟨"alice", "t1", "Alice", "r", none, none, none⟩,
                             ⟨"bob", "t2", "Bob", "r", none, none, none⟩], []⟩ : Room).users.filter
              fun u => decide (u.id ≠ "alice") })) ∧
      (jhas (leaveRoom c9ExampleState "t1" "r" "alice").1.rooms "r" = false ↔
        ((⟨"r", [⟨"alice", "t1", "Alice", "r", none, none, none⟩,
                 ⟨"bob", "t2", "Bob", "r", none, none, none⟩], []⟩ : Room).users.filter
          fun u => decide (u.id ≠ "alice")).isEmpty = true) ∧
      (∀ Y, Y ≠ "r" → jget (leaveRoom c9ExampleState "t1" "r" "alice").1.rooms Y =
        jget c9ExampleState.rooms Y) ∧
      (((⟨"r", [⟨"alice", "t1", "Alice", "r", none, none, none⟩,
                ⟨"bob", "t2", "Bob", "r", none, none, none⟩], []⟩ : Room).users.filter
          fun u => decide (u.id ≠ "alice")).isEmpty = false →
        (leaveRoom c9ExampleState "t1" "r" "alice").2 =
          [(.toRoom "r", .userLeft "alice"
             ((⟨"r", [⟨"alice", "t1", "Alice", "r", none, none, none⟩,
                      ⟨"bob", "t2", "Bob", "r", none, none, none⟩], []⟩ : Room).users.filter
               fun u => decide (u.id ≠ "alice")))] ∧
        ∀ t ∈ sioMembers (leaveRoom c9ExampleState "t1" "r" "alice").1 "r",
          (t, Payload.userLeft "alice"
            ((⟨"r", [⟨"alice", "t1", "Alice", "r", none, none, none⟩,
                     ⟨"bob", "t2", "Bob", "r", none, none, none⟩], []⟩ : Room).users.filter
              fun u => decide (u.id ≠ "alice"))) ∈
            deliveries (leaveRoom c9ExampleState "t1" "r" "alice").1
              (leaveRoom c9ExampleState "t1" "r" "alice").2))) :=
  ⟨⟨by decide, (c9_leave_room c9ExampleState "t9" "nope" "alice").1 (by decide)⟩,
   by decide,
   (c9_leave_room c9ExampleState "t1" "r" "alice").2 _ (by decide)⟩

/-! ## Claim C7 -/

theorem setFirstMatch_append {γ : Type} (p : γ → Bool) (f : γ → γ)
    (pre : List γ) (u : γ) (post : List γ)
    (hpre : ∀ v ∈ pre, p v = false) (hu : p u = true) :
    setFirstMatch p f (pre ++ u :: post) = pre ++ f u :: post := by
  induction pre with
  | nil => simp [setFirstMatch, hu]
  | cons a t ih =>
      have ha : p a = false := hpre a (List.mem_cons_self _ _)
      have ih' := ih fun v hv => hpre v (List.mem_cons_of_mem _ hv)
      simp [setFirstMatch, ha, ih']

/-- **C7.** `update-media` on a known room and participant merges the
partial update into exactly the first matching participant record —
keeping its identity fields, its unmentioned flags, and every other
participant (and every other room, the user map and the channels)
unchanged — and broadcasts only the delta `{userId, updates}`; when the
room or the participant is unknown the state is unchanged and nothing is
emitted. -/
theorem c7_update_media_delta (s : SrvState) (roomId userId : String)
    (upd : MediaUpdates) :
    (jhas s.rooms roomId = false → updateMedia s roomId userId upd = (s, [])) ∧
    (∀ room, jget s.rooms roomId = some room →
      room.users.any (fun u => decide (u.id = userId)) = false →
      updateMedia s roomId userId upd = (s, [])) ∧
    (∀ room pre u post, jget s.rooms roomId = some room →
      room.users = pre ++ u :: post →
      (∀ v ∈ pre, v.id ≠ userId) → u.id = userId →
      (updateMedia s roomId userId upd).2 =
        [(.toRoom roomId, .mediaUpdated userId upd)] ∧
      jget (updateMedia s roomId userId upd).1.rooms roomId =
        some { room with users := pre ++ mergeUpdates u upd :: post } ∧
      (∀ Y, Y ≠ roomId →
        jget (updateMedia s roomId userId upd).1.rooms Y = jget s.rooms Y) ∧
      (updateMedia s roomId userId upd).1.users = s.users ∧
      (updateMedia s roomId userId upd).1.sioRooms = s.sioRooms ∧
      (mergeUpdates u upd).id = u.id ∧
      (mergeUpdates u upd).socketId = u.socketId ∧
      (mergeUpdates u upd).name = u.name ∧
      (mergeUpdates u upd).roomId = u.roomId ∧
      (mergeUpdates u upd).audioEnabled =
        (match upd.audioEnabled with | some v => some v | none => u.audioEnabled) ∧
      (mergeUpdates u upd).videoEnabled =
        (match upd.videoEnabled with | some v => some v | none => u.videoEnabled) ∧
      (mergeUpdates u upd).isScreenSharing =
        (match upd.isScreenSharing with | some v => some v | none => u.isScreenSharing)) := by
  refine ⟨?_, ?_, ?_⟩
  · intro h
    have hn : jget s.rooms roomId = none := (jhas_eq_false_iff _ _).1 h
    simp [updateMedia, hn]
  · intro room hroom hany
    simp [updateMedia, hroom, hany]
  · intro room pre u post hroom husers hpre hu
    have hany : room.users.any (fun v => decide (v.id = userId)) = true := by
      rw [husers]
      refine List.any_eq_true.2 ⟨u, ?_, by simp [hu]⟩
      exact List.mem_append_right _ (List.mem_cons_self _ _)
    have hset : setFirstMatch (fun v => decide (v.id = userId))
        (fun v => mergeUpdates v upd) room.users = pre ++ mergeUpdates u upd :: post := by
      rw [husers]
      exact setFirstMatch_append _ _ pre u post
        (fun v hv => by simp [hpre v hv]) (by simp [hu])
    have heq : updateMedia s roomId userId upd =
        (⟨jset s.rooms roomId { room with users := pre ++ mergeUpdates u upd :: post },
          s.users, s.sioRooms⟩,
         [(.toRoom roomId, .mediaUpdated userId upd)]) := by
      simp only [updateMedia, hroom]
      rw [if_pos hany, hset]
    rw [heq]
    refine ⟨rfl, jget_jset_self _ _ _, fun Y hY => jget_jset_ne _ hY _, rfl, rfl,
      rfl, rfl, rfl, rfl, rfl, rfl, rfl⟩

/-- A room where `alice` has audio on and video on, for exercising C7. -/
def c7ExampleState : SrvState :=
  (joinRoom (joinRoom SrvState.init "t1" "r" (some "alice") "f1" "Alice").1
    "t2" "r" (some "bob") "f2" "Bob").1

def c7ExampleUpd : MediaUpdates := ⟨none, some false, none⟩

theorem c7_update_media_delta_witness :
    (jhas c7ExampleState.rooms "nope" = false ∧
     updateMedia c7ExampleState "nope" "alice" c7ExampleUpd = (c7ExampleState, [])) ∧
    (jget c7ExampleState.rooms "r" =
      some ⟨"r", [⟨"alice", "t1", "Alice", "r", none, none, none⟩,
                  ⟨"bob", "t2", "Bob", "r", none, none, none⟩], []⟩ ∧
     (⟨"r", [⟨"alice", "t1", "Alice", "r", none, none, none⟩,
             ⟨"bob", "t2", "Bob", "r", none, none, none⟩], []⟩ : Room).users.any
        (fun u => decide (u.id = "zed")) = false ∧
     updateMedia c7ExampleState "r" "zed" c7ExampleUpd = (c7ExampleState, [])) ∧
    ((updateMedia c7ExampleState "r" "bob" c7ExampleUpd).2 =
      [(.toRoom "r", .mediaUpdated "bob" c7ExampleUpd)] ∧
     jget (updateMedia c7ExampleState "r" "bob" c7ExampleUpd).1.rooms "r" =
      some ⟨"r", [⟨"alice", "t1", "Alice", "r", none, none, none⟩,
                  mergeUpdates ⟨"bob", "t2", "Bob", "r", none, none, none⟩ c7ExampleUpd],
            []⟩ ∧
     (updateMedia c7ExampleState "r" "bob" c7ExampleUpd).1.users = c7ExampleState.users ∧
     mergeUpdates ⟨"bob", "t2", "Bob", "r", none, none, none⟩ c7ExampleUpd =
       ⟨"bob", "t2", "Bob", "r", none, some false, none⟩) := by
  have T := c7_update_media_delta c7ExampleState "r" "bob" c7ExampleUpd
  have H := T.2.2 ⟨"r", [⟨"alice", "t1", "Alice", "r", none, none, none⟩,
                         ⟨"bob", "t2", "Bob", "r", none, none, none⟩], []⟩
    [⟨"alice", "t1", "Alice", "r", none, none, none⟩]
    ⟨"bob", "t2", "Bob", "r", none, none, none⟩ []
    (by decide) (by decide) (by decide) (by decide)
  exact ⟨⟨by decide,
      (c7_update_media_delta c7ExampleState "nope" "alice" c7ExampleUpd).1 (by decide)⟩,
    ⟨by decide, by decide,
      (c7_update_media_delta c7ExampleState "r" "zed" c7ExampleUpd).2.1
        ⟨"r", [⟨"alice", "t1", "Alice", "r", none, none, none⟩,
               ⟨"bob", "t2", "Bob", "r", none, none, none⟩], []⟩
        (by decide) (by decide)⟩,
    H.1, H.2.1, H.2.2.2.1, by decide⟩

/-! ## Claim C3 -/

theorem find?_eq_some_of_unique {γ : Type} (p : γ → Bool) (l : List γ) (target : γ)
    (hmem : target ∈ l) (hp : p target = true)
    (huniq : ∀ u ∈ l, p u = true → u = target) :
    l.find? p = some target := by
  induction l with
  | nil => exact absurd hmem (List.not_mem_nil _)
  | cons a t ih =>
      by_cases ha : p a = true
      · have : a = target := huniq a (List.mem_cons_self _ _) ha
        rw [List.find?_cons_of_pos _ ha, this]
      · have ha' : p a = false := Bool.eq_false_iff.2 ha
        rw [List.find?_cons_of_neg _ (by simp [ha'])]
        have hmem' : target ∈ t := by
          rcases List.mem_cons.1 hmem with h | h
          · rw [h] at hp
            rw [hp] at ha'
            exact Bool.noConfusion ha'
          · exact h
        exact ih hmem' fun u hu hpu => huniq u (List.mem_cons_of_mem _ hu) hpu

theorem find?_eq_none_of_all {γ : Type} (p : γ → Bool) (l : List γ)
    (h : ∀ u ∈ l, p u = false) : l.find? p = none := by
  induction l with
  | nil => rfl
  | cons a t ih =>
      rw [List.find?_cons_of_neg _ (by simp [h a (List.mem_cons_self _ _)])]
      exact ih fun u hu => h u (List.mem_cons_of_mem _ hu)

/-- **C3.** The `signal` handler never changes server state. When the
sender's socket is bound to a user, the relayed message `{signal, from:
senderId}` is emitted to the socket id stored in the user record
currently bound to the stable participant id `to` — whatever that
transport currently is, which is what makes the route survive transport
changes across reconnects — and when no user record carries id `to`
nothing at all is emitted (silent skip). -/
theorem c3_signal_routed_to_current_transport (s : SrvState) (sock : String)
    (sig : Sig) (toId : String) :
    (relaySignal s sock sig toId).1 = s ∧
    (jget s.users sock = none → (relaySignal s sock sig toId).2 = []) ∧
    (∀ fromUser, jget s.users sock = some fromUser →
      ((∀ u ∈ s.users.map Prod.snd, u.id ≠ toId) →
        (relaySignal s sock sig toId).2 = []) ∧
      (∀ target, target ∈ s.users.map Prod.snd → target.id = toId →
        (∀ u ∈ s.users.map Prod.snd, u.id = toId → u = target) →
        (relaySignal s sock sig toId).2 =
          [(.toSock target.socketId, .signalMsg sig fromUser.id)])) := by
  refine ⟨?_, ?_, ?_⟩
  · unfold relaySignal
    cases jget s.users sock with
    | none => rfl
    | some fromUser =>
        cases (s.users.map Prod.snd).find? (fun u => decide (u.id = toId)) with
        | none => rfl
        | some target => rfl
  · intro h
    simp [relaySignal, h]
  · intro fromUser hfrom
    constructor
    · intro hnone
      have hfind : (s.users.map Prod.snd).find? (fun u => decide (u.id = toId)) = none :=
        find?_eq_none_of_all _ _ fun u hu => by simp [hnone u hu]
      simp [relaySignal, hfrom, hfind]
    · intro target hmem htid huniq
      have hfind : (s.users.map Prod.snd).find? (fun u => decide (u.id = toId))
          = some target :=
        find?_eq_some_of_unique _ _ target hmem (by simp [htid])
          fun u hu hpu => huniq u hu (by simpa using hpu)
      simp [relaySignal, hfrom, hfind]

/-- A reconnect scenario for C3: `bob` joined on transport `t2`,
disconnected, and rejoined on transport `t9`; `alice` then signals `bob`
and the relay targets `t9`, the transport currently bound to `bob`. -/
def c3ExampleState : SrvState :=
  (joinRoom
    (disconnectSock
      (joinRoom (joinRoom SrvState.init "t1" "r" (some "alice") "f1" "Alice").1
        "t2" "r" (some "bob") "f2" "Bob").1
      "t2").1
    "t9" "r" (some "bob") "f3" "Bob").1

theorem c3_signal_routed_to_current_transport_witness :
    (relaySignal c3ExampleState "t1" 42 "bob").1 = c3ExampleState ∧
    jget c3ExampleState.users "t1" =
      some ⟨"alice", "t1", "Alice", "r", none, none, none⟩ ∧
    (⟨"bob", "t9", "Bob", "r", none, none, none⟩ : UserRec) ∈
      c3ExampleState.users.map Prod.snd ∧
    (∀ u ∈ c3ExampleState.users.map Prod.snd, u.id = "bob" →
      u = ⟨"bob", "t9", "Bob", "r", none, none, none⟩) ∧
    (relaySignal c3ExampleState "t1" 42 "bob").2 =
      [(.toSock "t9", .signalMsg 42 "alice")] ∧
    (relaySignal c3ExampleState "t1" 42 "zed").2 = [] := by
  have T := c3_signal_routed_to_current_transport c3ExampleState "t1" 42 "bob"
  have Tz := c3_signal_routed_to_current_transport c3ExampleState "t1" 42 "zed"
  refine ⟨T.1, by decide, by decide, by decide, ?_, ?_⟩
  · exact (T.2.2 ⟨"alice", "t1", "Alice", "r", none, none, none⟩ (by decide)).2
      ⟨"bob", "t9", "Bob", "r", none, none, none⟩ (by decide) (by decide) (by decide)
  · exact (Tz.2.2 ⟨"alice", "t1", "Alice", "r", none, none, none⟩ (by decide)).1 (by decide)

/-! ## Claim C6 -/

/-- The sender normalization of the `send-message` handler
(`server.js` lines 158-164): `message.sender.name || 'Unknown'` under
JS `||`, i.e. an absent **or empty** name yields `"Unknown"`. -/
def normalizeMsg (m : ChatMsg) : ChatMsg :=
  match m.sender with
  | .str _ => m
  | .obj nm =>
      { m with
        sender := .str (match nm with
          | some n => if n = "" then "Unknown" else n
          | none => "Unknown") }

theorem sendMessage_eq (s : SrvState) (roomId : String) (msg : ChatMsg)
    (room : Room) (hroom : jget s.rooms roomId = some room) :
    sendMessage s roomId msg =
      (⟨jset s.rooms roomId { room with messages := room.messages ++ [normalizeMsg msg] },
        s.users, s.sioRooms⟩,
       [(.toRoom roomId, .newMessage (normalizeMsg msg))]) := by
  cases hm : msg.sender with
  | str a => simp [sendMessage, hroom, normalizeMsg, hm]
  | obj nm => simp [sendMessage, hroom, normalizeMsg, hm]

/-- Sequential processing of a list of `send-message` events on the same
room. -/
def sendAll (s : SrvState) (roomId : String) (msgs : List ChatMsg) : SrvState :=
  msgs.foldl (fun acc m => (sendMessage acc roomId m).1) s

theorem sendAll_messages (roomId : String) (msgs : List ChatMsg) (s : SrvState)
    (room : Room) (hroom : jget s.rooms roomId = some room) :
    ∃ room2, jget (sendAll s roomId msgs).rooms roomId = some room2 ∧
      room2.messages = room.messages ++ msgs.map normalizeMsg := by
  induction msgs generalizing s room with
  | nil => exact ⟨room, hroom, by simp [sendAll]⟩
  | cons m rest ih =>
      have hstep := sendMessage_eq s roomId m room hroom
      have hnext : jget (sendMessage s roomId m).1.rooms roomId =
          some { room with messages := room.messages ++ [normalizeMsg m] } := by
        rw [hstep]
        exact jget_jset_self _ _ _
      obtain ⟨room2, h1, h2⟩ := ih (sendMessage s roomId m).1 _ hnext
      refine ⟨room2, h1, ?_⟩
      rw [h2]
      simp

/-- A one-member room `r` for exercising C6. -/
def c6ExampleState : SrvState :=
  (joinRoom SrvState.init "t1" "r" (some "alice") "f1" "Alice").1

/-- A message whose sender is a structured object with a *present but
empty* name field. -/
def c6ExampleMsg : ChatMsg := ⟨"m1", Sender.obj (some ""), "hi", 0⟩

/-- **C6 (counterexample).** The claim says a structured sender is
replaced by the object's name field, falling back to `"Unknown"` only
when the name field is absent. Here the name field is present (the empty
string), yet the stored and broadcast sender is `"Unknown"`, not the
name field's value `""` — the JS `||` fallback also fires on an empty
name. -/
theorem c6_empty_name_counterexample :
    c6ExampleMsg.sender = Sender.obj (some "") ∧
    jget (sendMessage c6ExampleState "r" c6ExampleMsg).1.rooms "r" =
      some ⟨"r", [⟨"alice", "t1", "Alice", "r", none, none, none⟩],
            [⟨"m1", Sender.str "Unknown", "hi", 0⟩]⟩ ∧
    (sendMessage c6ExampleState "r" c6ExampleMsg).2 =
      [(.toRoom "r", .newMessage ⟨"m1", Sender.str "Unknown", "hi", 0⟩)] ∧
    Sender.str "Unknown" ≠ Sender.str "" := by
  exact ⟨rfl, by decide, by decide, by decide⟩

/-- **C6 (amended).** For every `send-message` on an existing room, the
stored and broadcast message has a string sender: a structured sender is
replaced by its name field when that is a non-empty string and by the
literal `"Unknown"` when the name field is absent **or empty**; the
message is otherwise unmodified, appended to the room's history, and
broadcast to every socket in the room channel; a sequence of sends
appends to the history in send order. -/
theorem c6_send_message_normalized (s : SrvState) (roomId : String) (msg : ChatMsg)
    (room : Room) (hroom : jget s.rooms roomId = some room) :
    (sendMessage s roomId msg).2 =
      [(.toRoom roomId, .newMessage (normalizeMsg msg))] ∧
    jget (sendMessage s roomId msg).1.rooms roomId =
      some { room with messages := room.messages ++ [normalizeMsg msg] } ∧
    (normalizeMsg msg).id = msg.id ∧
    (normalizeMsg msg).text = msg.text ∧
    (normalizeMsg msg).timestamp = msg.timestamp ∧
    (∃ a, (normalizeMsg msg).sender = .str a) ∧
    (normalizeMsg msg).sender =
      (match msg.sender with
       | .str a => .str a
       | .obj (some n) => .str (if n = "" then "Unknown" else n)
       | .obj none => .str "Unknown") ∧
    (∀ t ∈ sioMembers (sendMessage s roomId msg).1 roomId,
      (t, Payload.newMessage (normalizeMsg msg)) ∈
        deliveries (sendMessage s roomId msg).1 (sendMessage s roomId msg).2) ∧
    (∀ msgs : List ChatMsg, ∃ room2,
      jget (sendAll s roomId msgs).rooms roomId = some room2 ∧
      room2.messages = room.messages ++ msgs.map normalizeMsg) := by
  have hstep := sendMessage_eq s roomId msg room hroom
  refine ⟨by rw [hstep], by rw [hstep]; exact jget_jset_self _ _ _, ?_, ?_, ?_, ?_, ?_, ?_, ?_⟩
  · cases hm : msg.sender <;> simp [normalizeMsg, hm]
  · cases hm : msg.sender <;> simp [normalizeMsg, hm]
  · cases hm : msg.sender <;> simp [normalizeMsg, hm]
  · cases hm : msg.sender with
    | str a => exact ⟨a, by simp [normalizeMsg, hm]⟩
    | obj nm =>
        cases nm with
        | none => exact ⟨"Unknown", by simp [normalizeMsg, hm]⟩
        | some n => exact ⟨if n = "" then "Unknown" else n, by simp [normalizeMsg, hm]⟩
  · cases hm : msg.sender with
    | str a => simp [normalizeMsg, hm]
    | obj nm => cases nm <;> simp [normalizeMsg, hm]
  · intro t ht
    rw [hstep]
    rw [hstep] at ht
    simp only [deliveries, List.flatMap_cons, List.flatMap_nil, List.append_nil]
    exact List.mem_map_of_mem _ ht
  · intro msgs
    exact sendAll_messages roomId msgs s room hroom

theorem c6_send_message_normalized_witness :
    jget c6ExampleState.rooms "r" =
      some ⟨"r", [⟨"alice", "t1", "Alice", "r", none, none, none⟩], []⟩ ∧
    ((sendMessage c6ExampleState "r" c6ExampleMsg).2 =
      [(.toRoom "r", .newMessage (normalizeMsg c6ExampleMsg))] ∧
     jget (sendMessage c6ExampleState "r" c6ExampleMsg).1.rooms "r" =
      some { (⟨"r", [⟨"alice", "t1", "Alice", "r", none, none, none⟩], []⟩ : Room) with
        messages := (⟨"r", [⟨"alice", "t1", "Alice", "r", none, none, none⟩], []⟩ : Room).messages
          ++ [normalizeMsg c6ExampleMsg] } ∧
     (normalizeMsg c6ExampleMsg).id = c6ExampleMsg.id ∧
     (normalizeMsg c6ExampleMsg).text = c6ExampleMsg.text ∧
     (normalizeMsg c6ExampleMsg).timestamp = c6ExampleMsg.timestamp ∧
     (∃ a, (normalizeMsg c6ExampleMsg).sender = .str a) ∧
     (normalizeMsg c6ExampleMsg).sender =
       (match c6ExampleMsg.sender with
        | .str a => .str a
        | .obj (some n) => .str (if n = "" then "Unknown" else n)
        | .obj none => .str "Unknown") ∧
     (∀ t ∈ sioMembers (sendMessage c6ExampleState "r" c6ExampleMsg).1 "r",
       (t, Payload.newMessage (normalizeMsg c6ExampleMsg)) ∈
         deliveries (sendMessage c6ExampleState "r" c6ExampleMsg).1
           (sendMessage c6ExampleState "r" c6ExampleMsg).2) ∧
     (∀ msgs : List ChatMsg, ∃ room2,
       jget (sendAll c6ExampleState "r" msgs).rooms "r" = some room2 ∧
       room2.messages =
         (⟨"r", [⟨"alice", "t1", "Alice", "r", none, none, none⟩], []⟩ : Room).messages
           ++ msgs.map normalizeMsg)) :=
  ⟨by decide,
   c6_send_message_normalized c6ExampleState "r" c6ExampleMsg
     ⟨"r", [⟨"alice", "t1", "Alice", "r", none, none, none⟩], []⟩ (by decide)⟩

/-! ## Claim C2 -/

/-- The operations of C2, all directed at one fixed room. -/
inductive SOp where
  | join (sock : String) (uid : Option String) (fresh nm : String)
  | leave (sock pid : String)
  | disc (sock : String)
  deriving DecidableEq, Repr

/-- One gateway step on room `R` (join-room / leave-room / disconnect
handlers; emitted messages discarded). -/
def sstep (R : String) (s : SrvState) : SOp → SrvState
  | .join sock uid fresh nm => (joinRoom s sock R uid fresh nm).1
  | .leave sock pid => (leaveRoom s sock R pid).1
  | .disc sock => (disconnectSock s sock).1

def srun (R : String) (s : SrvState) (ops : List SOp) : SrvState :=
  ops.foldl (sstep R) s

/-- Specification-side state, following the claim's words: which
participant ids have joined and not since left, together with which
participant each transport is currently bound to (a disconnect counts as
the leave of the participant bound to that transport; a leave of a room
that does not exist — no participant present — does nothing). -/
structure SpecSt where
  bound : List (String × String)
  present : List String
  deriving DecidableEq, Repr

def SpecSt.start : SpecSt := ⟨[], []⟩

/-- The claim's "joined and have not since left" set, folded over the
trace. -/
def specStep (sp : SpecSt) : SOp → SpecSt
  | .join sock uid fresh _ =>
      let pid := resolveId uid fresh
      ⟨jset sp.bound sock pid, pid :: sp.present⟩
  | .leave sock pid =>
      if sp.present.isEmpty then sp
      else ⟨jdel sp.bound sock, sp.present.filter fun i => decide (i ≠ pid)⟩
  | .disc sock =>
      match jget sp.bound sock with
      | none => sp
      | some pid => ⟨jdel sp.bound sock, sp.present.filter fun i => decide (i ≠ pid)⟩

def specRun (sp : SpecSt) (ops : List SOp) : SpecSt :=
  ops.foldl specStep sp

/-- Coupling invariant between the server state restricted to room `R`
and the specification state: transports are bound to the same ids, every
bound user record names room `R`, the room exists exactly when some
participant is present, and a participant id occurs in the room's roster
exactly when it is present in the spec set. -/
def C2Inv (R : String) (s : SrvState) (sp : SpecSt) : Prop :=
  (∀ sock, (jget s.users sock).map UserRec.id = jget sp.bound sock) ∧
  (∀ sock u, jget s.users sock = some u → u.roomId = R) ∧
  ((jget s.rooms R).isSome = true ↔ sp.present ≠ []) ∧
  (∀ pid, (∃ room, jget s.rooms R = some room ∧ ∃ u ∈ room.users, u.id = pid) ↔
    pid ∈ sp.present)

theorem c2Inv_join (R : String) (s : SrvState) (sp : SpecSt)
    (h : C2Inv R s sp) (sock : String) (uid : Option String) (fresh nm : String) :
    C2Inv R (sstep R s (.join sock uid fresh nm)) (specStep sp (.join sock uid fresh nm)) := by
  obtain ⟨h1, h2, h3, h4⟩ := h
  have hspec : specStep sp (.join sock uid fresh nm) =
      ⟨jset sp.bound sock (resolveId uid fresh), resolveId uid fresh :: sp.present⟩ := rfl
  by_cases hhas : jhas s.rooms R = true
  · obtain ⟨r0, hr0⟩ := (jhas_iff _ _).1 hhas
    have heq : sstep R s (.join sock uid fresh nm) =
        ⟨jset s.rooms R { r0 with users := r0.users ++
            [⟨resolveId uid fresh, sock, nm, R, none, none, none⟩] },
          jset s.users sock ⟨resolveId uid fresh, sock, nm, R, none, none, none⟩,
          sioJoin s.sioRooms R sock⟩ := by
      simp [sstep, joinRoom, hhas, hr0]
    have h4' : ∀ pid, (∃ u ∈ r0.users, u.id = pid) ↔ pid ∈ sp.present := by
      intro pid
      rw [← h4 pid]
      constructor
      · rintro ⟨u, hu, hid⟩
        exact ⟨r0, hr0, u, hu, hid⟩
      · rintro ⟨room, hroom, u, hu, hid⟩
        rw [hr0] at hroom
        injection hroom with he
        exact ⟨u, he ▸ hu, hid⟩
    rw [heq, hspec]
    refine ⟨?_, ?_, ?_, ?_⟩
    · intro sock'
      by_cases hs : sock' = sock
      · subst hs
        simp [jget_jset_self]
      · rw [jget_jset_ne _ hs, jget_jset_ne _ hs]
        exact h1 sock'
    · intro sock' u hu
      by_cases hs : sock' = sock
      · subst hs
        rw [jget_jset_self] at hu
        injection hu with he
        rw [← he]
      · rw [jget_jset_ne _ hs] at hu
        exact h2 sock' u hu
    · simp [jget_jset_self]
    · intro pid
      simp only [jget_jset_self]
      constructor
      · rintro ⟨room, hroom, u, hu, hid⟩
        injection hroom with he
        rw [← he] at hu
        rcases List.mem_append.1 hu with hu' | hu'
        · exact List.mem_cons_of_mem _ ((h4' pid).1 ⟨u, hu', hid⟩)
        · rcases List.mem_singleton.1 hu' with rfl
          rw [← hid]
          exact List.mem_cons_self _ _
      · intro hpid
        rcases List.mem_cons.1 hpid with rfl | hpid'
        · exact ⟨_, rfl, ⟨resolveId uid fresh, sock, nm, R, none, none, none⟩,
            List.mem_append_right _ (List.mem_singleton_self _), rfl⟩
        · obtain ⟨u, hu, hid⟩ := (h4' pid).2 hpid'
          exact ⟨_, rfl, u, List.mem_append_left _ hu, hid⟩
  · have hf : jget s.rooms R = none := by
      rcases hq : jget s.rooms R with _ | v
      · rfl
      · rw [jhas, hq] at hhas
        exact absurd rfl hhas
    have hpres : sp.present = [] := by
      by_contra hne
      have := h3.2 hne
      rw [hf] at this
      exact Bool.noConfusion this
    have heq : sstep R s (.join sock uid fresh nm) =
        ⟨jset (jset s.rooms R ⟨R, [], []⟩) R
            ⟨R, [⟨resolveId uid fresh, sock, nm, R, none, none, none⟩], []⟩,
          jset s.users sock ⟨resolveId uid fresh, sock, nm, R, none, none, none⟩,
          sioJoin s.sioRooms R sock⟩ := by
      have hhas' : jhas s.rooms R = false := (jhas_eq_false_iff _ _).2 hf
      simp [sstep, joinRoom, hhas', jget_jset_self]
    rw [heq, hspec, hpres]
    refine ⟨?_, ?_, ?_, ?_⟩
    · intro sock'
      by_cases hs : sock' = sock
      · subst hs
        simp [jget_jset_self]
      · rw [jget_jset_ne _ hs, jget_jset_ne _ hs]
        exact h1 sock'
    · intro sock' u hu
      by_cases hs : sock' = sock
      · subst hs
        rw [jget_jset_self] at hu
        injection hu with he
        rw [← he]
      · rw [jget_jset_ne _ hs] at hu
        exact h2 sock' u hu
    · simp [jget_jset_self]
    · intro pid
      simp only [jget_jset_self]
      constructor
      · rintro ⟨room, hroom, u, hu, hid⟩
        injection hroom with he
        rw [← he] at hu
        rcases List.mem_singleton.1 hu with rfl
        rw [← hid]
        exact List.mem_cons_self _ _
      · intro hpid
        rcases List.mem_cons.1 hpid with rfl | hpid'
        · exact ⟨_, rfl, ⟨resolveId uid fresh, sock, nm, R, none, none, none⟩,
            List.mem_singleton_self _, rfl⟩
        · exact absurd hpid' (List.not_mem_nil _)

theorem isEmpty_true_iff {γ : Type} (l : List γ) : l.isEmpty = true ↔ l = [] := by
  cases l <;> simp

theorem isEmpty_false_iff {γ : Type} (l : List γ) : l.isEmpty = false ↔ l ≠ [] := by
  cases l <;> simp

/-- Removing participant `pid` from a known room: the room survives
exactly when the filtered roster is non-empty, and the surviving roster
ids are exactly the spec set minus `pid`. -/
theorem c2_remove_aux (R : String) (s : SrvState) (sp : SpecSt) (room : Room)
    (pid : String) (hr0 : jget s.rooms R = some room)
    (h4 : ∀ i, (∃ rm, jget s.rooms R = some rm ∧ ∃ u ∈ rm.users, u.id = i) ↔
      i ∈ sp.present) :
    ((jget (if (room.users.filter fun u => decide (u.id ≠ pid)).isEmpty
        then jdel s.rooms R
        else jset s.rooms R
          { room with users := room.users.filter fun u => decide (u.id ≠ pid) }) R).isSome
      = true ↔ (sp.present.filter fun i => decide (i ≠ pid)) ≠ []) ∧
    (∀ i, (∃ rm, jget (if (room.users.filter fun u => decide (u.id ≠ pid)).isEmpty
        then jdel s.rooms R
        else jset s.rooms R
          { room with users := room.users.filter fun u => decide (u.id ≠ pid) }) R
        = some rm ∧ ∃ u ∈ rm.users, u.id = i) ↔
      i ∈ sp.present.filter fun i => decide (i ≠ pid)) := by
  have h4' : ∀ i, (∃ u ∈ room.users, u.id = i) ↔ i ∈ sp.present := by
    intro i
    rw [← h4 i]
    constructor
    · rintro ⟨u, hu, hid⟩
      exact ⟨room, hr0, u, hu, hid⟩
    · rintro ⟨rm, hrm, u, hu, hid⟩
      rw [hr0] at hrm
      injection hrm with he
      exact ⟨u, he ▸ hu, hid⟩
  have E : ∀ i, (∃ u ∈ room.users.filter (fun u => decide (u.id ≠ pid)), u.id = i) ↔
      i ∈ sp.present.filter (fun i => decide (i ≠ pid)) := by
    intro i
    constructor
    · rintro ⟨u, hu, hid⟩
      obtain ⟨hmem, hne⟩ := List.mem_filter.1 hu
      have hne' : u.id ≠ pid := by simpa using hne
      refine List.mem_filter.2 ⟨(h4' i).1 ⟨u, hmem, hid⟩, ?_⟩
      rw [← hid]
      simpa using hne'
    · intro hp
      obtain ⟨hmem, hne⟩ := List.mem_filter.1 hp
      have hne' : i ≠ pid := by simpa using hne
      obtain ⟨u, hu, hid⟩ := (h4' i).2 hmem
      refine ⟨u, List.mem_filter.2 ⟨hu, ?_⟩, hid⟩
      rw [hid]
      simpa using hne'
  by_cases hE : (room.users.filter fun u => decide (u.id ≠ pid)).isEmpty = true
  · have hnil : room.users.filter (fun u => decide (u.id ≠ pid)) = [] :=
      (isEmpty_true_iff _).1 hE
    have hpres' : sp.present.filter (fun i => decide (i ≠ pid)) = [] := by
      rw [List.eq_nil_iff_forall_not_mem]
      intro x hx
      obtain ⟨u, hu, _⟩ := (E x).2 hx
      rw [hnil] at hu
      exact absurd hu (List.not_mem_nil _)
    rw [if_pos hE, hpres']
    constructor
    · simp [jget_jdel_self]
    · intro i
      simp [jget_jdel_self]
  · rw [if_neg hE]
    have hne : room.users.filter (fun u => decide (u.id ≠ pid)) ≠ [] :=
      (isEmpty_false_iff _).1 (Bool.eq_false_iff.2 hE)
    constructor
    · rw [jget_jset_self]
      refine iff_of_true rfl ?_
      obtain ⟨u, hu⟩ := List.exists_mem_of_ne_nil _ hne
      exact List.ne_nil_of_mem ((E u.id).1 ⟨u, hu, rfl⟩)
    · intro i
      rw [jget_jset_self]
      constructor
      · rintro ⟨rm, hrm, u, hu, hid⟩
        injection hrm with he
        rw [← he] at hu
        exact (E i).1 ⟨u, hu, hid⟩
      · intro hp
        obtain ⟨u, hu, hid⟩ := (E i).2 hp
        exact ⟨_, rfl, u, hu, hid⟩

theorem c2Inv_leave (R : String) (s : SrvState) (sp : SpecSt)
    (h : C2Inv R s sp) (sock pid : String) :
    C2Inv R (sstep R s (.leave sock pid)) (specStep sp (.leave sock pid)) := by
  obtain ⟨h1, h2, h3, h4⟩ := h
  cases hr : jget s.rooms R with
  | none =>
      have hpres : sp.present = [] := by
        by_contra hne
        have := h3.2 hne
        rw [hr] at this
        exact Bool.noConfusion this
      have heq : sstep R s (.leave sock pid) = s := by
        simp [sstep, leaveRoom, hr]
      have hsp : specStep sp (.leave sock pid) = sp := by
        simp [specStep, hpres]
      rw [heq, hsp]
      exact ⟨h1, h2, h3, h4⟩
  | some room =>
      have hpres : sp.present ≠ [] := h3.1 (by rw [hr]; rfl)
      have hEm : sp.present.isEmpty = false := (isEmpty_false_iff _).2 hpres
      have heq : sstep R s (.leave sock pid) =
          ⟨if (room.users.filter fun u => decide (u.id ≠ pid)).isEmpty
              then jdel s.rooms R
              else jset s.rooms R
                { room with users := room.users.filter fun u => decide (u.id ≠ pid) },
            jdel s.users sock, sioLeave s.sioRooms R sock⟩ := by
        by_cases hc : (room.users.filter fun u => decide (u.id ≠ pid)).isEmpty = true
        · simp [sstep, leaveRoom, hr, hc]
        · simp [sstep, leaveRoom, hr, hc]
      have hsp : specStep sp (.leave sock pid) =
          ⟨jdel sp.bound sock, sp.present.filter fun i => decide (i ≠ pid)⟩ := by
        simp [specStep, hEm]
      rw [heq, hsp]
      obtain ⟨hc2, hd2⟩ := c2_remove_aux R s sp room pid hr h4
      refine ⟨?_, ?_, hc2, hd2⟩
      · intro sock'
        by_cases hs : sock' = sock
        · subst hs
          simp [jget_jdel_self]
        · rw [jget_jdel_ne _ hs, jget_jdel_ne _ hs]
          exact h1 sock'
      · intro sock' u hu
        by_cases hs : sock' = sock
        · subst hs
          rw [jget_jdel_self] at hu
          exact Option.noConfusion hu
        · rw [jget_jdel_ne _ hs] at hu
          exact h2 sock' u hu

theorem c2Inv_disc (R : String) (hR : R ≠ "") (s : SrvState) (sp : SpecSt)
    (h : C2Inv R s sp) (sock : String) :
    C2Inv R (sstep R s (.disc sock)) (specStep sp (.disc sock)) := by
  obtain ⟨h1, h2, h3, h4⟩ := h
  cases hu : jget s.users sock with
  | none =>
      have hb : jget sp.bound sock = none := by
        have hh := h1 sock
        rw [hu] at hh
        simpa using hh.symm
      have heq : sstep R s (.disc sock) =
          ⟨s.rooms, s.users, sioDisc s.sioRooms sock⟩ := by
        simp [sstep, disconnectSock, hu]
      have hsp : specStep sp (.disc sock) = sp := by
        simp [specStep, hb]
      rw [heq, hsp]
      exact ⟨h1, h2, h3, h4⟩
  | some user =>
      have hb : jget sp.bound sock = some user.id := by
        have hh := h1 sock
        rw [hu] at hh
        simpa using hh.symm
      have hroomR : user.roomId = R := h2 sock user hu
      have hRne : ¬ user.roomId = "" := by
        rw [hroomR]
        exact hR
      have hsp : specStep sp (.disc sock) =
          ⟨jdel sp.bound sock, sp.present.filter fun i => decide (i ≠ user.id)⟩ := by
        simp [specStep, hb]
      cases hr : jget s.rooms R with
      | none =>
          have heq : sstep R s (.disc sock) =
              ⟨s.rooms, jdel s.users sock, sioDisc s.sioRooms sock⟩ := by
            simp [sstep, disconnectSock, hu, hroomR, hr, hR]
          have hpres : sp.present = [] := by
            by_contra hne
            have := h3.2 hne
            rw [hr] at this
            exact Bool.noConfusion this
          have hpres' : sp.present.filter (fun i => decide (i ≠ user.id)) = [] := by
            rw [hpres]
            rfl
          rw [heq, hsp]
          refine ⟨?_, ?_, ?_, ?_⟩
          · intro sock'
            by_cases hs : sock' = sock
            · subst hs
              simp [jget_jdel_self]
            · rw [jget_jdel_ne _ hs, jget_jdel_ne _ hs]
              exact h1 sock'
          · intro sock' u hv
            by_cases hs : sock' = sock
            · subst hs
              rw [jget_jdel_self] at hv
              exact Option.noConfusion hv
            · rw [jget_jdel_ne _ hs] at hv
              exact h2 sock' u hv
          · rw [hpres']
            simp [hr]
          · intro i
            rw [hpres']
            simp [hr]
      | some room =>
          have heq : sstep R s (.disc sock) =
              ⟨if (room.users.filter fun u => decide (u.id ≠ user.id)).isEmpty
                  then jdel s.rooms R
                  else jset s.rooms R
                    { room with users := room.users.filter fun u => decide (u.id ≠ user.id) },
                jdel s.users sock, sioDisc s.sioRooms sock⟩ := by
            simp [sstep, disconnectSock, hu, hroomR, hr, hR]
            all_goals (split <;> rfl)
          rw [heq, hsp]
          obtain ⟨hc2, hd2⟩ := c2_remove_aux R s sp room user.id hr h4
          refine ⟨?_, ?_, hc2, hd2⟩
          · intro sock'
            by_cases hs : sock' = sock
            · subst hs
              simp [jget_jdel_self]
            · rw [jget_jdel_ne _ hs, jget_jdel_ne _ hs]
              exact h1 sock'
          · intro sock' u hv
            by_cases hs : sock' = sock
            · subst hs
              rw [jget_jdel_self] at hv
              exact Option.noConfusion hv
            · rw [jget_jdel_ne _ hs] at hv
              exact h2 sock' u hv

theorem c2Inv_step (R : String) (hR : R ≠ "") (s : SrvState) (sp : SpecSt)
    (h : C2Inv R s sp) (op : SOp) :
    C2Inv R (sstep R s op) (specStep sp op) := by
  cases op with
  | join sock uid fresh nm => exact c2Inv_join R s sp h sock uid fresh nm
  | leave sock pid => exact c2Inv_leave R s sp h sock pid
  | disc sock => exact c2Inv_disc R hR s sp h sock

theorem c2Inv_run (R : String) (hR : R ≠ "") (ops : List SOp) (s : SrvState)
    (sp : SpecSt) (h : C2Inv R s sp) :
    C2Inv R (srun R s ops) (specRun sp ops) := by
  induction ops generalizing s sp with
  | nil => exact h
  | cons op rest ih => exact ih (sstep R s op) (specStep sp op) (c2Inv_step R hR s sp h op)

/-- **C2.** For any sequence of join-room, leave-room and disconnect
operations on a fixed room `R` (with a non-empty, i.e. JS-truthy, room
id) starting from the empty registry: the room is present in the
registry exactly when the set of participants that joined and have not
since left (as folded by `specStep` over the same trace, a disconnect
counting as the leave of the participant bound to that transport) is
non-empty, and a participant id occurs in the room's roster exactly when
it belongs to that set. -/
theorem c2_roster_matches_trace (R : String) (hR : R ≠ "") (ops : List SOp) :
    (jhas (srun R SrvState.init ops).rooms R = true ↔
      (specRun SpecSt.start ops).present ≠ []) ∧
    (∀ pid, (∃ room, jget (srun R SrvState.init ops).rooms R = some room ∧
        ∃ u ∈ room.users, u.id = pid) ↔
      pid ∈ (specRun SpecSt.start ops).present) := by
  have hbase : C2Inv R SrvState.init SpecSt.start := by
    refine ⟨fun sock => rfl, fun sock u hu => Option.noConfusion hu, ?_, ?_⟩
    · simp [SrvState.init, SpecSt.start, jget]
    · intro pid
      simp [SrvState.init, SpecSt.start, jget]
  obtain ⟨_, _, h3, h4⟩ := c2Inv_run R hR ops SrvState.init SpecSt.start hbase
  exact ⟨h3, h4⟩

theorem c2_roster_matches_trace_witness :
    ("r" ≠ "") ∧
    ((jhas (srun "r" SrvState.init
        [SOp.join "t1" (some "a") "f1" "A", SOp.join "t2" (some "b") "f2" "B",
         SOp.leave "t1" "a", SOp.disc "t2"]).rooms "r" = true ↔
      (specRun SpecSt.start
        [SOp.join "t1" (some "a") "f1" "A", SOp.join "t2" (some "b") "f2" "B",
         SOp.leave "t1" "a", SOp.disc "t2"]).present ≠ []) ∧
     (∀ pid, (∃ room, jget (srun "r" SrvState.init
          [SOp.join "t1" (some "a") "f1" "A", SOp.join "t2" (some "b") "f2" "B",
           SOp.leave "t1" "a", SOp.disc "t2"]).rooms "r" = some room ∧
          ∃ u ∈ room.users, u.id = pid) ↔
        pid ∈ (specRun SpecSt.start
          [SOp.join "t1" (some "a") "f1" "A", SOp.join "t2" (some "b") "f2" "B",
           SOp.leave "t1" "a", SOp.disc "t2"]).present)) :=
  ⟨by decide,
   c2_roster_matches_trace "r" (by decide)
     [SOp.join "t1" (some "a") "f1" "A", SOp.join "t2" (some "b") "f2" "B",
      SOp.leave "t1" "a", SOp.disc "t2"]⟩
